import Mathlib

/-!
Verification development for the pl0dash-compiler front end
(`src/pl0dash_compiler/src/{char_class,keyword,symbol,tokenizer,parser}.rs`).

Shallow embedding notes:
* Bytes are `Nat` (the lexer only ever distinguishes values below 256).
* `BufReader<File>` becomes an explicit state `TokSt` holding the one
  buffered byte (`current_byte`) and the list of not-yet-read bytes.
  `read_exact` on an exhausted stream fails and leaves `current_byte`
  unchanged, which the model mirrors.
* `BufRead::read_until` consumes up to and including the delimiter, or up
  to end of stream, and returns `Ok` in both cases (it never reports
  `UnexpectedEof`); `_read_until` then unconditionally sets
  `current_byte` to the delimiter.  `readUntil` mirrors exactly that, so
  the `Err` arms of the comment loop in `get_next_token` are dead code
  here just as in the source.
* `get_next_token` can genuinely fail to terminate (the comment loop makes
  no progress at end of stream), so it takes a fuel parameter; `none`
  means the fuel ran out, and `∀ fuel, … = none` proves divergence.
* Identifier text is the `String` of the accumulated ASCII bytes, matching
  `std::str::from_utf8` + the `&str` table in `Keyword::try_from`.
* `Number` literals fold digits via `10*acc + d` on `i32`; the model uses
  wrapping two's-complement arithmetic (release-mode semantics).
-/

namespace PL0

/-- Model of `CharClass` from `char_class.rs` (the source's `Dot`/`SemiColon`
occurrences in `from_u8` name the `Period`/`Semicolon` variants of its own
enum). -/
inductive CharClass where
  | Digit | Letter | Plus | Minus | Aster | Slash | Lparen | Rparen
  | Equal | Lss | Gtr | Comma | Period | Semicolon | Colon | Other
  deriving DecidableEq, Repr

namespace CharClass

/-- Model of `CharClass::from_u8`. -/
def fromU8 (b : Nat) : CharClass :=
  if 48 ≤ b ∧ b ≤ 57 then .Digit
  else if (97 ≤ b ∧ b ≤ 122) ∨ (65 ≤ b ∧ b ≤ 90) then .Letter
  else if b = 43 then .Plus
  else if b = 45 then .Minus
  else if b = 42 then .Aster
  else if b = 47 then .Slash
  else if b = 40 then .Lparen
  else if b = 41 then .Rparen
  else if b = 61 then .Equal
  else if b = 60 then .Lss
  else if b = 62 then .Gtr
  else if b = 44 then .Comma
  else if b = 46 then .Period
  else if b = 59 then .Semicolon
  else if b = 58 then .Colon
  else .Other

/-- Model of `CharClass::is_reserved`. -/
def isReserved (c : CharClass) : Bool :=
  match c with
  | .Other => false
  | _ => true

end CharClass

/-- Model of `Keyword` from `keyword.rs`. -/
inductive Keyword where
  | Begin | End | If | Then | While | Do | Ret | Func | Var | Const
  | Odd | Write | WriteLn
  deriving DecidableEq, Repr

namespace Keyword

/-- The reserved word for each `Keyword` variant, as in the match arms of
`Keyword::try_from`. -/
def asString : Keyword → String
  | .Begin => "begin"
  | .End => "end"
  | .If => "if"
  | .Then => "then"
  | .While => "while"
  | .Do => "do"
  | .Ret => "return"
  | .Func => "function"
  | .Var => "var"
  | .Const => "const"
  | .Odd => "odd"
  | .Write => "write"
  | .WriteLn => "writeln"

/-- Model of `Keyword::try_from(&str)`: a word maps to a keyword exactly when it
equals one of the thirteen reserved words; otherwise
`Err(UndefinedKeywordError)`, here `none`. -/
def tryFrom (s : String) : Option Keyword :=
  if s = "begin" then some .Begin
  else if s = "end" then some .End
  else if s = "if" then some .If
  else if s = "then" then some .Then
  else if s = "while" then some .While
  else if s = "do" then some .Do
  else if s = "return" then some .Ret
  else if s = "function" then some .Func
  else if s = "var" then some .Var
  else if s = "const" then some .Const
  else if s = "odd" then some .Odd
  else if s = "write" then some .Write
  else if s = "writeln" then some .WriteLn
  else none

end Keyword

/-- Model of `Symbol` from `symbol.rs`. -/
inductive Symbol where
  | Plus | Minus | Mult | Div | Lparen | Rparen | Equal | Lss | Gtr
  | NotEq | LssEq | GtrEq | Comma | Period | SemiColon | Assign
  deriving DecidableEq, Repr

/-- The single-byte entries of the `Symbol::try_from` table, read at the
`CharClass` level as `get_next_token`'s final arm applies it (the
multi-byte entries `:=`, `<=`, `>=`, `<>` are realized by the dedicated
compound-operator arms of `get_next_token`, and the `Digit`/`Letter`/
`Colon`/`Lss`/`Gtr`/`Slash` classes never reach this arm). `Other` is the
unmatched case, `Err(UndefinedSymbol)` in the source. -/
def symbolOfCharClass : CharClass → Option Symbol
  | .Plus => some .Plus
  | .Minus => some .Minus
  | .Aster => some .Mult
  | .Slash => some .Div
  | .Lparen => some .Lparen
  | .Rparen => some .Rparen
  | .Equal => some .Equal
  | .Lss => some .Lss
  | .Gtr => some .Gtr
  | .Comma => some .Comma
  | .Period => some .Period
  | .Semicolon => some .SemiColon
  | .Digit | .Letter | .Colon | .Other => none

/-- Model of `Token` from `tokenizer.rs`. -/
inductive Token where
  | Keyword (k : Keyword)
  | Symbol (s : Symbol)
  | Identifier (text : String)
  | Number (n : Int)
  deriving DecidableEq, Repr

/-- Model of `TokenizerError` from `tokenizer.rs`.  `CannotReadByte` (an I/O error
other than end of stream) and `Unrecoverable` cannot arise in the pure
byte-list model but are kept for fidelity. -/
inductive TokenizerError where
  | ReachedEOF | UndefinedToken | CannotReadByte | CommentNotTerminated
  | Unrecoverable
  deriving DecidableEq, Repr

/-- The `Tokenizer` state: `current_byte` plus the bytes not yet pulled
from the `BufReader`. -/
structure TokSt where
  cur : Nat
  input : List Nat
  deriving DecidableEq, Repr

namespace Tokenizer

/-- Model of `Tokenizer::new`: reads one byte into `current_byte`.  The `Result` of
that `read_exact` is discarded, so on an empty stream `current_byte`
keeps the buffer's initializer `0`. -/
def new : List Nat → TokSt
  | [] => ⟨0, []⟩
  | b :: r => ⟨b, r⟩

/-- Model of `Tokenizer::_read_next_byte`: `none` is `Err(ReachedEOF)`; the state is
unchanged in that case (the field is only assigned on success). -/
def readNextByte (st : TokSt) : Option TokSt :=
  match st.input with
  | [] => none
  | b :: r => some ⟨b, r⟩

/-- A `_read_next_byte()` call whose `Result` is discarded: on end of
stream `current_byte` keeps its old value. -/
def advOrKeep (st : TokSt) : TokSt :=
  match readNextByte st with
  | some st' => st'
  | none => st

/-- Model of `Tokenizer::_read_until(b)`: `BufRead::read_until` consumes up to and
including the first `b` (or the whole rest of the stream when `b` never
occurs) and returns `Ok` either way; then `current_byte` is forced to `b`.
It never fails in the byte-list model. -/
def readUntil (b : Nat) (st : TokSt) : TokSt :=
  ⟨b, (st.input.dropWhile (fun c => c ≠ b)).drop 1⟩

/-- Model of `current_byte.is_ascii_whitespace() || current_byte == b'\n'`. -/
def isWs (b : Nat) : Bool :=
  b = 32 ∨ b = 9 ∨ b = 10 ∨ b = 12 ∨ b = 13

/-- The whitespace-skipping loop at the top of `get_next_token`, on the
`(current_byte, remaining input)` pair; the `?` propagates `ReachedEOF`
when the stream ends during the skip. -/
def skipWsAux (c : Nat) : List Nat → Except TokenizerError TokSt
  | [] => if isWs c then .error .ReachedEOF else .ok ⟨c, []⟩
  | b :: r => if isWs c then skipWsAux b r else .ok ⟨c, b :: r⟩

/-- The whitespace-skipping loop, as a state transformer. -/
def skipWs (st : TokSt) : Except TokenizerError TokSt :=
  skipWsAux st.cur st.input

/-- The digit-accumulating loop of `_tokenize_number` on the
`(current_byte, remaining input)` pair: returns the extra digit bytes in
order and the state after the loop (at end of stream the state is
unchanged, the last digit stays buffered). -/
def numLoop (c : Nat) : List Nat → List Nat × TokSt
  | [] => ([], ⟨c, []⟩)
  | b :: r =>
    if 48 ≤ b ∧ b ≤ 57 then
      let (ds, st') := numLoop b r
      (b :: ds, st')
    else ([], ⟨b, r⟩)

/-- Two's-complement wrap of an integer into `i32`. -/
def wrap32 (n : Int) : Int := (n + 2 ^ 31) % 2 ^ 32 - 2 ^ 31

/-- Model of `Tokenizer::_tokenize_number`: accumulate `current_byte` and the
following digits, then fold `10*acc + d` (i32 arithmetic). -/
def tokenizeNumber (st : TokSt) : Token × TokSt :=
  let (ds, st') := numLoop st.cur st.input
  let digits := st.cur :: ds
  (Token.Number (digits.foldl (fun acc d => wrap32 (10 * acc + ((d : Int) - 48))) 0),
   st')

/-- The letter-or-digit accumulating loop of `_tokenize_identifier`. -/
def identLoop (c : Nat) : List Nat → List Nat × TokSt
  | [] => ([], ⟨c, []⟩)
  | b :: r =>
    match CharClass.fromU8 b with
    | .Digit | .Letter =>
      let (cs, st') := identLoop b r
      (b :: cs, st')
    | _ => ([], ⟨b, r⟩)

/-- Model of `std::str::from_utf8` on the accumulated ASCII bytes. -/
def strOfBytes (bs : List Nat) : String :=
  ⟨bs.map Char.ofNat⟩

/-- Model of `Tokenizer::_tokenize_identifier`: accumulate the word, then look it up
with `Keyword::try_from`; `Keyword` on a hit, `Identifier` otherwise. -/
def tokenizeIdentifier (st : TokSt) : Token × TokSt :=
  let (cs, st') := identLoop st.cur st.input
  let word := strOfBytes (st.cur :: cs)
  (match Keyword.tryFrom word with
   | some kw => Token.Keyword kw
   | none => Token.Identifier word, st')

/-- The comment loop of `get_next_token`: `_read_until(b'*')` (always
`Ok`), a discarded `_read_next_byte`, exit on `/`.  At end of stream the
loop makes no progress, so it needs fuel; `none` is divergence.  The
source's `Err` arms (`CommentNotTerminated` on `UnexpectedEof`) are
unreachable because `read_until` reports end of stream as `Ok`. -/
def commentLoop : Nat → TokSt → Option TokSt
  | 0, _ => none
  | fuel + 1, st =>
    let st1 := readUntil 42 st
    let st2 := advOrKeep st1
    if st2.cur = 47 then some (advOrKeep st2)
    else commentLoop fuel st2

/-- Model of `Tokenizer::get_next_token`.  `none` = out of fuel (divergence);
`some (.error e)` = `Err(e)`; `some (.ok (t, st'))` = `Ok(t)` with the
tokenizer left in state `st'`.  The `_read_next_byte()` calls whose
`Result` the source discards are `advOrKeep`; the one in the `Colon` arm
uses `?` and so propagates `ReachedEOF`. -/
def getNextToken : Nat → TokSt → Option (Except TokenizerError (Token × TokSt))
  | 0, _ => none
  | fuel + 1, st =>
    match skipWs st with
    | .error e => some (.error e)
    | .ok st0 =>
      match CharClass.fromU8 st0.cur with
      | .Digit => some (.ok (tokenizeNumber st0))
      | .Letter => some (.ok (tokenizeIdentifier st0))
      | .Colon =>
        match readNextByte st0 with
        | none => some (.error .ReachedEOF)
        | some st1 =>
          match CharClass.fromU8 st1.cur with
          | .Equal => some (.ok (Token.Symbol .Assign, advOrKeep st1))
          | _ => some (.error .UndefinedToken)
      | .Lss =>
        let st1 := advOrKeep st0
        match CharClass.fromU8 st1.cur with
        | .Equal => some (.ok (Token.Symbol .LssEq, advOrKeep st1))
        | .Gtr => some (.ok (Token.Symbol .NotEq, advOrKeep st1))
        | _ => some (.ok (Token.Symbol .Lss, st1))
      | .Gtr =>
        let st1 := advOrKeep st0
        match CharClass.fromU8 st1.cur with
        | .Equal => some (.ok (Token.Symbol .GtrEq, advOrKeep st1))
        | _ => some (.ok (Token.Symbol .Gtr, st1))
      | .Slash =>
        let st1 := advOrKeep st0
        match CharClass.fromU8 st1.cur with
        | .Aster =>
          match commentLoop fuel st1 with
          | none => none
          | some st2 => getNextToken fuel st2
        | _ => some (.ok (Token.Symbol .Div, st1))
      | cc =>
        match symbolOfCharClass cc with
        | some sym => some (.ok (Token.Symbol sym, advOrKeep st0))
        | none => some (.error .UndefinedToken)

/-- Pull tokens with `get_next_token` until the first `Err` (the driver
loop of the repository's own token-export test stops at `ReachedEOF`).
`none` = some call ran out of fuel. -/
def lexAll : Nat → TokSt → Option (List Token)
  | 0, _ => none
  | f + 1, st =>
    match getNextToken (f + 1) st with
    | none => none
    | some (.error _) => some []
    | some (.ok (t, st')) => (lexAll f st').map (fun ts => t :: ts)

/-- The token sequence the lexer alone produces for a byte stream. -/
def tokensOfInput (fuel : Nat) (bytes : List Nat) : Option (List Token) :=
  lexAll fuel (new bytes)

end Tokenizer

/-!
## Parser model (`parser.rs`)

`parser.rs` is an in-progress port (its tests still target the Jack
compiler) and contains surface slips that Rust would reject; the embedding
reads them by their evident intent, never inventing behavior:
* `compile_block` is the `parse_block` that `parse_program` and
  `parse_func_decl` call; `Engine {` in `Parser::new` builds a `Parser`;
  `SyntaxNode::Token(t)` is `SyntaxNode::new(Syntax::Token(t))`;
  `Keyword::Function`/`Keyword::Return` are the `Func`/`Ret` variants;
  `parse_condition`/`parse_term` return their `node`.
* The parser's sole interaction with the `Tokenizer` is the refill
  `self.current_token = self.tokenizer.get_next_token()`.  The token
  source is therefore modelled as the list of tokens the lexer yields
  (`Tokenizer.lexAll`); `current_token` is an `Option Token`, `none`
  standing for a buffered `Err` (the field is typed `Token` but assigned
  the whole `Result`, so no token pattern can match it then).
* Reading the buffered `Err` as a token (`parse_token` at exhaustion) and
  the non-exhaustive match of `parse_factor` (no arm for a `Keyword` or a
  buffered `Err`) cannot proceed; they are the two `ParserStuck` errors.
  `parser.rs` has no error type of its own and performs no first-set
  checks anywhere else.
* The `loop`s inside `parse_expression` and `parse_term` only `break` from
  inside an `if let Token::Symbol(sym)` — when the current token is not a
  `Symbol` the loop body does nothing and spins forever.  The parse
  functions therefore take fuel; `none` is divergence or fuel exhaustion.
-/

/-- Model of `Syntax` from `parser.rs`: a grammar symbol or a `Terminal` wrapping
exactly one token. -/
inductive Syntax where
  | Program | Block | ConstDecl | VarDecl | FuncDecl | Statement
  | Condition | Expression | Term | Factor
  | Token (t : Token)
  deriving DecidableEq, Repr

/-- Model of `SyntaxNode`: a tag and an ordered list of owned children
(`append_child` pushes on the right). -/
inductive SyntaxNode where
  | mk (syn : Syntax) (children : List SyntaxNode)

namespace SyntaxNode

def syn : SyntaxNode → Syntax
  | .mk s _ => s

def children : SyntaxNode → List SyntaxNode
  | .mk _ cs => cs

end SyntaxNode

mutual
/-- Structural equality of syntax trees. -/
def nodeBEq : SyntaxNode → SyntaxNode → Bool
  | .mk s cs, .mk s' cs' => (s = s' : Bool) && nodesBEq cs cs'
/-- Structural equality of child lists. -/
def nodesBEq : List SyntaxNode → List SyntaxNode → Bool
  | [], [] => true
  | c :: cs, c' :: cs' => nodeBEq c c' && nodesBEq cs cs'
  | _, _ => false
end

mutual
/-- The `Terminal` tokens of a tree, flattened left to right. -/
def flatten : SyntaxNode → List Token
  | .mk s cs =>
    (match s with
     | .Token t => [t]
     | _ => []) ++ flattenList cs
/-- Model of `flatten` over a child list, left to right. -/
def flattenList : List SyntaxNode → List Token
  | [] => []
  | c :: cs => flatten c ++ flattenList cs
end

mutual
/-- The tree invariants of spec §3: a `Terminal` owns no children; every
non-terminal except `Statement` (whose grammar has the empty production)
owns at least one child.  Finiteness and acyclicity are intrinsic to the
inductive `SyntaxNode`. -/
def nodeOk : SyntaxNode → Bool
  | .mk s cs =>
    (match s with
     | .Token _ => cs.isEmpty
     | .Statement => true
     | _ => !cs.isEmpty) && nodesOk cs
/-- Model of `nodeOk` for every node of a child list. -/
def nodesOk : List SyntaxNode → Bool
  | [] => true
  | c :: cs => nodeOk c && nodesOk cs
end

/-- The `Parser` fields: the one buffered token (`none` = the buffered
refill `Result` was an `Err`) and the tokens the lexer has yet to yield. -/
structure PSt where
  cur : Option Token
  rest : List Token
  deriving DecidableEq, Repr

namespace Parser

/-- The refill `self.current_token = self.tokenizer.get_next_token()`:
take the next token of the stream, or buffer the `Err` (`none`). -/
def refill (st : PSt) : PSt :=
  match st.rest with
  | [] => ⟨none, []⟩
  | t :: r => ⟨some t, r⟩

/-- Model of `Parser::new`: the constructor itself performs the first refill. -/
def init (toks : List Token) : PSt :=
  match toks with
  | [] => ⟨none, []⟩
  | t :: r => ⟨some t, r⟩

/-- The token stream a parser state still holds: the buffered token (if
any) followed by the tokens the lexer has yet to yield. -/
def toksP (st : PSt) : List Token :=
  (match st.cur with
   | none => []
   | some t => [t]) ++ st.rest

/-- The ways the modelled parser can get stuck (the source has no error
type; these mark places where the Rust code could not proceed). -/
inductive ParserStuck where
  | eofStuck        -- `parse_token` with a buffered lexer `Err`
  | factorUnmatched -- `parse_factor`: no arm for this current token
  deriving DecidableEq, Repr

/-- Result of a parse step: `none` = divergence/fuel exhaustion. -/
abbrev PResult (α : Type) := Option (Except ParserStuck (α × PSt))

/-- Sequencing of parse steps (the Rust is straight-line code; divergence
and stuckness propagate). -/
def pbind {α β : Type} (x : PResult α) (k : α → PSt → PResult β) : PResult β :=
  match x with
  | none => none
  | some (.error e) => some (.error e)
  | some (.ok (a, st)) => k a st

/-- Model of `Parser::parse_token`: wrap the current token as a `Terminal` node and
refill — with no check whatsoever of which token it is. -/
def parseToken (st : PSt) : PResult SyntaxNode :=
  match st.cur with
  | some t => some (.ok (.mk (.Token t) [], refill st))
  | none => some (.error .eofStuck)

mutual

/-- Model of `Parser::parse_program`: `Block` then the `'.'` position (consumed by
`parse_token` without checking it is a period). -/
def parseProgram : Nat → PSt → PResult SyntaxNode
  | 0, _ => none
  | f + 1, st =>
    pbind (parseBlock f st) fun nb st1 =>
    pbind (parseToken st1) fun nt st2 =>
    some (.ok (.mk .Program [nb, nt], st2))

/-- Model of `Parser::compile_block` (called as `parse_block`): the declaration
loop, then a `Statement`. -/
def parseBlock : Nat → PSt → PResult SyntaxNode
  | 0, _ => none
  | f + 1, st =>
    pbind (declLoop f st) fun ds st1 =>
    pbind (parseStatement f st1) fun ns st2 =>
    some (.ok (.mk .Block (ds ++ [ns]), st2))

/-- The declaration loop of `compile_block`: on `const`/`var`/`function`
the keyword is consumed by a bare refill (no `Terminal` is made here;
the decl functions fabricate it) and the decl is parsed; any other
current token exits the loop. -/
def declLoop : Nat → PSt → PResult (List SyntaxNode)
  | 0, _ => none
  | f + 1, st =>
    match st.cur with
    | some (.Keyword .Const) =>
      pbind (parseConstDecl f (refill st)) fun n st1 =>
      pbind (declLoop f st1) fun ns st2 =>
      some (.ok (n :: ns, st2))
    | some (.Keyword .Var) =>
      pbind (parseVarDecl f (refill st)) fun n st1 =>
      pbind (declLoop f st1) fun ns st2 =>
      some (.ok (n :: ns, st2))
    | some (.Keyword .Func) =>
      pbind (parseFuncDecl f (refill st)) fun n st1 =>
      pbind (declLoop f st1) fun ns st2 =>
      some (.ok (n :: ns, st2))
    | _ => some (.ok ([], st))

/-- Model of `Parser::parse_const_decl`: fabricated `const` terminal, the
`ident = number (, ident = number)*` loop, then the `';'` position. -/
def parseConstDecl : Nat → PSt → PResult SyntaxNode
  | 0, _ => none
  | f + 1, st =>
    pbind (constItems f st) fun ns st1 =>
    pbind (parseToken st1) fun nsemi st2 =>
    some (.ok (.mk .ConstDecl (.mk (.Token (.Keyword .Const)) [] :: (ns ++ [nsemi])), st2))

/-- The item loop of `parse_const_decl`: three unchecked `parse_token`
calls per item, separated by commas. -/
def constItems : Nat → PSt → PResult (List SyntaxNode)
  | 0, _ => none
  | f + 1, st =>
    pbind (parseToken st) fun n1 st1 =>
    pbind (parseToken st1) fun n2 st2 =>
    pbind (parseToken st2) fun n3 st3 =>
    match st3.cur with
    | some (.Symbol .Comma) =>
      pbind (parseToken st3) fun nc st4 =>
      pbind (constItems f st4) fun ns st5 =>
      some (.ok (n1 :: n2 :: n3 :: nc :: ns, st5))
    | _ => some (.ok ([n1, n2, n3], st3))

/-- Model of `Parser::parse_var_decl`: fabricated `var` terminal, the
`ident (, ident)*` loop, then the `';'` position. -/
def parseVarDecl : Nat → PSt → PResult SyntaxNode
  | 0, _ => none
  | f + 1, st =>
    pbind (varItems f st) fun ns st1 =>
    pbind (parseToken st1) fun nsemi st2 =>
    some (.ok (.mk .VarDecl (.mk (.Token (.Keyword .Var)) [] :: (ns ++ [nsemi])), st2))

/-- The item loop of `parse_var_decl`. -/
def varItems : Nat → PSt → PResult (List SyntaxNode)
  | 0, _ => none
  | f + 1, st =>
    pbind (parseToken st) fun n1 st1 =>
    match st1.cur with
    | some (.Symbol .Comma) =>
      pbind (parseToken st1) fun nc st2 =>
      pbind (varItems f st2) fun ns st3 =>
      some (.ok (n1 :: nc :: ns, st3))
    | _ => some (.ok ([n1], st1))

/-- Model of `Parser::parse_func_decl`: fabricated `function` terminal, name,
`'('`, parameter loop, `')'`, a `Block`, then the `';'` position. -/
def parseFuncDecl : Nat → PSt → PResult SyntaxNode
  | 0, _ => none
  | f + 1, st =>
    pbind (parseToken st) fun nid st1 =>
    pbind (parseToken st1) fun nlp st2 =>
    pbind (paramLoop f st2) fun ps st3 =>
    pbind (parseToken st3) fun nrp st4 =>
    pbind (parseBlock f st4) fun nblk st5 =>
    pbind (parseToken st5) fun nsemi st6 =>
    some (.ok (.mk .FuncDecl
      (.mk (.Token (.Keyword .Func)) [] :: nid :: nlp :: (ps ++ [nrp, nblk, nsemi])), st6))

/-- The `while let Token::Identifier(_)` parameter loop of
`parse_func_decl` (a comma continues the loop, which re-checks for an
identifier; anything else breaks). -/
def paramLoop : Nat → PSt → PResult (List SyntaxNode)
  | 0, _ => none
  | f + 1, st =>
    match st.cur with
    | some (.Identifier _) =>
      pbind (parseToken st) fun n1 st1 =>
      match st1.cur with
      | some (.Symbol .Comma) =>
        pbind (parseToken st1) fun nc st2 =>
        pbind (paramLoop f st2) fun ns st3 =>
        some (.ok (n1 :: nc :: ns, st3))
      | _ => some (.ok ([n1], st1))
    | _ => some (.ok ([], st))

/-- Model of `Parser::parse_statement`: the alternative is picked by the current
token alone; any token matching no arm yields the empty statement. -/
def parseStatement : Nat → PSt → PResult SyntaxNode
  | 0, _ => none
  | f + 1, st =>
    match st.cur with
    | some (.Identifier _) =>
      pbind (parseToken st) fun nid st1 =>
      pbind (parseToken st1) fun nasgn st2 =>
      pbind (parseExpression f st2) fun ne st3 =>
      some (.ok (.mk .Statement [nid, nasgn, ne], st3))
    | some (.Keyword .Begin) =>
      pbind (parseToken st) fun nb st1 =>
      pbind (stmtLoop f st1) fun ns st2 =>
      pbind (parseToken st2) fun nend st3 =>
      some (.ok (.mk .Statement (nb :: (ns ++ [nend])), st3))
    | some (.Keyword .If) =>
      pbind (parseToken st) fun nif st1 =>
      pbind (parseCondition f st1) fun nc st2 =>
      pbind (parseToken st2) fun nthen st3 =>
      pbind (parseStatement f st3) fun nst st4 =>
      some (.ok (.mk .Statement [nif, nc, nthen, nst], st4))
    | some (.Keyword .While) =>
      pbind (parseToken st) fun nw st1 =>
      pbind (parseCondition f st1) fun nc st2 =>
      pbind (parseToken st2) fun ndo st3 =>
      pbind (parseStatement f st3) fun nst st4 =>
      some (.ok (.mk .Statement [nw, nc, ndo, nst], st4))
    | some (.Keyword .Ret) =>
      pbind (parseToken st) fun nr st1 =>
      pbind (parseExpression f st1) fun ne st2 =>
      some (.ok (.mk .Statement [nr, ne], st2))
    | some (.Keyword .Write) =>
      pbind (parseToken st) fun nw st1 =>
      pbind (parseExpression f st1) fun ne st2 =>
      some (.ok (.mk .Statement [nw, ne], st2))
    | some (.Keyword .WriteLn) =>
      pbind (parseToken st) fun nw st1 =>
      some (.ok (.mk .Statement [nw], st1))
    | _ => some (.ok (.mk .Statement [], st))

/-- The `Statement (';' Statement)*` loop inside the `begin` arm. -/
def stmtLoop : Nat → PSt → PResult (List SyntaxNode)
  | 0, _ => none
  | f + 1, st =>
    pbind (parseStatement f st) fun n1 st1 =>
    match st1.cur with
    | some (.Symbol .SemiColon) =>
      pbind (parseToken st1) fun nsemi st2 =>
      pbind (stmtLoop f st2) fun ns st3 =>
      some (.ok (n1 :: nsemi :: ns, st3))
    | _ => some (.ok ([n1], st1))

/-- Model of `Parser::parse_condition`: `odd Expression`, or
`Expression <relop> Expression` where the relational operator position is
an unchecked `parse_token`. -/
def parseCondition : Nat → PSt → PResult SyntaxNode
  | 0, _ => none
  | f + 1, st =>
    match st.cur with
    | some (.Keyword .Odd) =>
      pbind (parseToken st) fun nodd st1 =>
      pbind (parseExpression f st1) fun ne st2 =>
      some (.ok (.mk .Condition [nodd, ne], st2))
    | _ =>
      pbind (parseExpression f st) fun ne1 st1 =>
      pbind (parseToken st1) fun nop st2 =>
      pbind (parseExpression f st2) fun ne2 st3 =>
      some (.ok (.mk .Condition [ne1, nop, ne2], st3))

/-- Model of `Parser::parse_expression`: optional sign, a `Term`, then the
`(('+'|'-') Term)*` loop. -/
def parseExpression : Nat → PSt → PResult SyntaxNode
  | 0, _ => none
  | f + 1, st =>
    match st.cur with
    | some (.Symbol .Plus) =>
      pbind (parseToken st) fun nsgn st1 =>
      pbind (parseTerm f st1) fun nt st2 =>
      pbind (expLoop f st2) fun ns st3 =>
      some (.ok (.mk .Expression (nsgn :: nt :: ns), st3))
    | some (.Symbol .Minus) =>
      pbind (parseToken st) fun nsgn st1 =>
      pbind (parseTerm f st1) fun nt st2 =>
      pbind (expLoop f st2) fun ns st3 =>
      some (.ok (.mk .Expression (nsgn :: nt :: ns), st3))
    | _ =>
      pbind (parseTerm f st) fun nt st1 =>
      pbind (expLoop f st1) fun ns st2 =>
      some (.ok (.mk .Expression (nt :: ns), st2))

/-- The additive loop of `parse_expression`.  Its `break` sits inside
`if let Token::Symbol(sym)`: when the current token is not a `Symbol`
(or is a buffered `Err`) the loop body falls through and the loop spins
forever — modelled by recursing on smaller fuel without progress. -/
def expLoop : Nat → PSt → PResult (List SyntaxNode)
  | 0, _ => none
  | f + 1, st =>
    match st.cur with
    | some (.Symbol .Plus) =>
      pbind (parseToken st) fun nop st1 =>
      pbind (parseTerm f st1) fun nt st2 =>
      pbind (expLoop f st2) fun ns st3 =>
      some (.ok (nop :: nt :: ns, st3))
    | some (.Symbol .Minus) =>
      pbind (parseToken st) fun nop st1 =>
      pbind (parseTerm f st1) fun nt st2 =>
      pbind (expLoop f st2) fun ns st3 =>
      some (.ok (nop :: nt :: ns, st3))
    | some (.Symbol _) => some (.ok ([], st))
    | _ => expLoop f st

/-- Model of `Parser::parse_term`: a `Factor` then the `(('*'|'/') Factor)*`
loop. -/
def parseTerm : Nat → PSt → PResult SyntaxNode
  | 0, _ => none
  | f + 1, st =>
    pbind (parseFactor f st) fun nf st1 =>
    pbind (termLoop f st1) fun ns st2 =>
    some (.ok (.mk .Term (nf :: ns), st2))

/-- The multiplicative loop of `parse_term`, with the same
spin-on-non-`Symbol` shape as `expLoop`. -/
def termLoop : Nat → PSt → PResult (List SyntaxNode)
  | 0, _ => none
  | f + 1, st =>
    match st.cur with
    | some (.Symbol .Mult) =>
      pbind (parseToken st) fun nop st1 =>
      pbind (parseFactor f st1) fun nf st2 =>
      pbind (termLoop f st2) fun ns st3 =>
      some (.ok (nop :: nf :: ns, st3))
    | some (.Symbol .Div) =>
      pbind (parseToken st) fun nop st1 =>
      pbind (parseFactor f st1) fun nf st2 =>
      pbind (termLoop f st2) fun ns st3 =>
      some (.ok (nop :: nf :: ns, st3))
    | some (.Symbol _) => some (.ok ([], st))
    | _ => termLoop f st

/-- Model of `Parser::parse_factor`: an identifier (optionally a call when `'('`
follows), a number, or — for ANY current `Symbol` — the parenthesised
alternative `'(' Expression ')'` with both parentheses consumed
uncheckedly.  Its match has no arm for a `Keyword` (or a buffered `Err`):
`factorUnmatched`. -/
def parseFactor : Nat → PSt → PResult SyntaxNode
  | 0, _ => none
  | f + 1, st =>
    match st.cur with
    | some (.Identifier _) =>
      pbind (parseToken st) fun nid st1 =>
      match st1.cur with
      | some (.Symbol .Lparen) =>
        pbind (parseToken st1) fun nlp st2 =>
        (match st2.cur with
         | some (.Symbol .Rparen) =>
           pbind (parseToken st2) fun nrp st3 =>
           some (.ok (.mk .Factor [nid, nlp, nrp], st3))
         | _ =>
           pbind (argLoop f st2) fun args st3 =>
           pbind (parseToken st3) fun nrp st4 =>
           some (.ok (.mk .Factor (nid :: nlp :: (args ++ [nrp])), st4)))
      | _ => some (.ok (.mk .Factor [nid], st1))
    | some (.Number _) =>
      pbind (parseToken st) fun nn st1 =>
      some (.ok (.mk .Factor [nn], st1))
    | some (.Symbol _) =>
      pbind (parseToken st) fun nlp st1 =>
      pbind (parseExpression f st1) fun ne st2 =>
      pbind (parseToken st2) fun nrp st3 =>
      some (.ok (.mk .Factor [nlp, ne, nrp], st3))
    | _ => some (.error .factorUnmatched)

/-- The `Expression (',' Expression)*` argument loop of the call shape in
`parse_factor`. -/
def argLoop : Nat → PSt → PResult (List SyntaxNode)
  | 0, _ => none
  | f + 1, st =>
    pbind (parseExpression f st) fun n1 st1 =>
    match st1.cur with
    | some (.Symbol .Comma) =>
      pbind (parseToken st1) fun nc st2 =>
      pbind (argLoop f st2) fun ns st3 =>
      some (.ok (n1 :: nc :: ns, st3))
    | _ => some (.ok ([n1], st1))

end

/-- Model of `Parser::parse` on an already-lexed token stream (`SyntaxTree` owns
exactly the `Program` root node that `parse_program` returns). -/
def parseToks (fuel : Nat) (toks : List Token) : PResult SyntaxNode :=
  parseProgram fuel (init toks)

/-- The whole front end: lex the byte stream, then parse the resulting
token stream. -/
def parseInput (lexFuel parseFuel : Nat) (bytes : List Nat) : PResult SyntaxNode :=
  match Tokenizer.tokensOfInput lexFuel bytes with
  | none => none
  | some toks => parseToks parseFuel toks

end Parser

/-!
## Emitter model (`SyntaxTreeVisitor` in `parser.rs`)

The visitor prints, per node, `print_indent(); println!("<{:?}>", syntax)`,
recurses into the children with `depth` incremented, then prints
`print_indent(); println!("</{:?}>", syntax)`.  The `{:?}` output of the
derived `Debug` impls is modelled byte for byte by the `dbg*` functions.
The visitor's mutation of `depth` and its print stream become an explicit
`VisitorSt`.
-/

/-- Rust derived `Debug` output for `Keyword` (variant names). -/
def dbgKeyword : Keyword → String
  | .Begin => "Begin"
  | .End => "End"
  | .If => "If"
  | .Then => "Then"
  | .While => "While"
  | .Do => "Do"
  | .Ret => "Ret"
  | .Func => "Func"
  | .Var => "Var"
  | .Const => "Const"
  | .Odd => "Odd"
  | .Write => "Write"
  | .WriteLn => "WriteLn"

/-- Rust derived `Debug` output for `Symbol` (variant names). -/
def dbgSymbol : Symbol → String
  | .Plus => "Plus"
  | .Minus => "Minus"
  | .Mult => "Mult"
  | .Div => "Div"
  | .Lparen => "Lparen"
  | .Rparen => "Rparen"
  | .Equal => "Equal"
  | .Lss => "Lss"
  | .Gtr => "Gtr"
  | .NotEq => "NotEq"
  | .LssEq => "LssEq"
  | .GtrEq => "GtrEq"
  | .Comma => "Comma"
  | .Period => "Period"
  | .SemiColon => "SemiColon"
  | .Assign => "Assign"

/-- Rust derived `Debug` output for `Token`. -/
def dbgToken : Token → String
  | .Keyword k => "Keyword(" ++ dbgKeyword k ++ ")"
  | .Symbol s => "Symbol(" ++ dbgSymbol s ++ ")"
  | .Identifier text => "Identifier(\"" ++ text ++ "\")"
  | .Number n => "Number(" ++ toString n ++ ")"

/-- Rust derived `Debug` output for `Syntax`. -/
def dbgSyntax : Syntax → String
  | .Program => "Program"
  | .Block => "Block"
  | .ConstDecl => "ConstDecl"
  | .VarDecl => "VarDecl"
  | .FuncDecl => "FuncDecl"
  | .Statement => "Statement"
  | .Condition => "Condition"
  | .Expression => "Expression"
  | .Term => "Term"
  | .Factor => "Factor"
  | .Token t => "Token(" ++ dbgToken t ++ ")"

/-- Output of `print_indent`: one space per depth level. -/
def indentStr (d : Nat) : String :=
  ⟨List.replicate d ' '⟩

/-- The `SyntaxTreeVisitor` state: its `depth` field plus the lines
printed so far. -/
structure VisitorSt where
  depth : Nat
  out : List String
  deriving DecidableEq, Repr

namespace Visitor

mutual
/-- Model of `SyntaxTreeVisitor::visit` at one node: print the opening tag at
the current indentation, visit the children at `depth + 1`, print the
closing tag back at the entry depth. -/
def visitNode : VisitorSt → SyntaxNode → VisitorSt
  | ⟨d, out⟩, .mk s cs =>
    let out1 := out ++ [indentStr d ++ "<" ++ dbgSyntax s ++ ">"]
    let stC := visitChildren ⟨d + 1, out1⟩ cs
    ⟨d, stC.out ++ [indentStr d ++ "</" ++ dbgSyntax s ++ ">"]⟩
/-- The `for child in …` loop of `visit`, in stored order. -/
def visitChildren : VisitorSt → List SyntaxNode → VisitorSt
  | stv, [] => stv
  | stv, c :: cs => visitChildren (visitNode stv c) cs
end

/-- Lines printed by visiting a whole tree from depth 0. -/
def visit (n : SyntaxNode) : List String :=
  (visitNode ⟨0, []⟩ n).out

mutual
/-- Specification-side description of the emitted lines: opening tag,
children's lines (depth + 1, left to right), matching closing tag. -/
def emitLines : Nat → SyntaxNode → List String
  | d, .mk s cs =>
    (indentStr d ++ "<" ++ dbgSyntax s ++ ">")
      :: (emitList (d + 1) cs ++ [indentStr d ++ "</" ++ dbgSyntax s ++ ">"])
/-- Concatenation of `emitLines` over a child list. -/
def emitList : Nat → List SyntaxNode → List String
  | _, [] => []
  | d, c :: cs => emitLines d c ++ emitList d cs
end

end Visitor

/-!
## Concrete inputs and trees used by individual claims
-/

/-- ASCII byte stream of a source text (inputs here are pure ASCII). -/
def bytesOfAscii (s : String) : List Nat :=
  s.data.map Char.toNat

/-- The token sequence the lexer alone produces for `"x:=1. y "`. -/
def c1Toks : List Token :=
  [.Identifier "x", .Symbol .Assign, .Number 1, .Symbol .Period,
   .Identifier "y"]

/-- The tree the parser returns for `"x:=1. y "` (the trailing
`y` is never consumed). -/
def c1Tree : SyntaxNode :=
  .mk .Program [
    .mk .Block [
      .mk .Statement [
        .mk (.Token (.Identifier "x")) [],
        .mk (.Token (.Symbol .Assign)) [],
        .mk .Expression [
          .mk .Term [
            .mk .Factor [.mk (.Token (.Number 1)) []]]]]],
    .mk (.Token (.Symbol .Period)) []]

/-- The tree the parser returns for the sole token `';'`: the semicolon is
consumed as the Program's terminating-period position. -/
def c4Tree : SyntaxNode :=
  .mk .Program [
    .mk .Block [.mk .Statement []],
    .mk (.Token (.Symbol .SemiColon)) []]

/-- The tree parsed from `"x:=a<=b. "` (the `<=` token lands in the
Program's period position). -/
def c6TreeA : SyntaxNode :=
  .mk .Program [
    .mk .Block [
      .mk .Statement [
        .mk (.Token (.Identifier "x")) [],
        .mk (.Token (.Symbol .Assign)) [],
        .mk .Expression [
          .mk .Term [
            .mk .Factor [.mk (.Token (.Identifier "a")) []]]]]],
    .mk (.Token (.Symbol .LssEq)) []]

/-- The tree parsed from `"x:=a< =b. "` (the lone `<` token lands in the
Program's period position). -/
def c6TreeB : SyntaxNode :=
  .mk .Program [
    .mk .Block [
      .mk .Statement [
        .mk (.Token (.Identifier "x")) [],
        .mk (.Token (.Symbol .Assign)) [],
        .mk .Expression [
          .mk .Term [
            .mk .Factor [.mk (.Token (.Identifier "a")) []]]]]],
    .mk (.Token (.Symbol .Lss)) []]

/-- Token sequence of the program `x:=1.` used as the C8 witness input. -/
def c8Toks : List Token :=
  [.Identifier "x", .Symbol .Assign, .Number 1, .Symbol .Period]

/-- The tree the parser returns for `c8Toks`. -/
def c8Tree : SyntaxNode :=
  .mk .Program [
    .mk .Block [
      .mk .Statement [
        .mk (.Token (.Identifier "x")) [],
        .mk (.Token (.Symbol .Assign)) [],
        .mk .Expression [
          .mk .Term [
            .mk .Factor [.mk (.Token (.Number 1)) []]]]]],
    .mk (.Token (.Symbol .Period)) []]

/-!
## Proofs
-/

mutual
theorem nodeBEq_iff : ∀ a b : SyntaxNode, nodeBEq a b = true ↔ a = b
  | .mk s cs, .mk s' cs' => by
    simp only [nodeBEq, Bool.and_eq_true, decide_eq_true_eq, SyntaxNode.mk.injEq]
    exact and_congr Iff.rfl (nodesBEq_iff cs cs')
theorem nodesBEq_iff : ∀ a b : List SyntaxNode, nodesBEq a b = true ↔ a = b
  | [], [] => by simp [nodesBEq]
  | [], _ :: _ => by simp [nodesBEq]
  | _ :: _, [] => by simp [nodesBEq]
  | c :: cs, c' :: cs' => by
    simp only [nodesBEq, Bool.and_eq_true, List.cons.injEq]
    exact and_congr (nodeBEq_iff c c') (nodesBEq_iff cs cs')
end

/-- Decidable structural equality of trees, via `nodeBEq` (placed here
because it rests on the reflection lemma above). -/
instance : DecidableEq SyntaxNode := fun a b =>
  decidable_of_iff (nodeBEq a b = true) (nodeBEq_iff a b)

namespace Visitor

mutual
/-- The visitor appends exactly `emitLines` to its output and restores its
depth. -/
theorem visitNode_emit : ∀ (stv : VisitorSt) (n : SyntaxNode),
    visitNode stv n = ⟨stv.depth, stv.out ++ emitLines stv.depth n⟩
  | ⟨d, out⟩, .mk s cs => by
    simp only [visitNode, emitLines]
    rw [visitChildren_emit ⟨d + 1, out ++ [indentStr d ++ "<" ++ dbgSyntax s ++ ">"]⟩ cs]
    simp [List.append_assoc]
/-- The child loop appends exactly `emitList` and keeps the depth. -/
theorem visitChildren_emit : ∀ (stv : VisitorSt) (cs : List SyntaxNode),
    visitChildren stv cs = ⟨stv.depth, stv.out ++ emitList stv.depth cs⟩
  | ⟨d, out⟩, [] => by simp [visitChildren, emitList]
  | ⟨d, out⟩, c :: cs => by
    simp only [visitChildren, emitList]
    rw [visitNode_emit ⟨d, out⟩ c, visitChildren_emit ⟨d, out ++ emitLines d c⟩ cs]
    simp [List.append_assoc]
end

end Visitor

/-!
### The parser consumption/shape invariant

For every parse procedure: when it returns a node (or child list), the
token stream of the entry state equals the flattened `Terminal` tokens of
what it built followed by the token stream of the exit state, and the
built tree satisfies the spec §3 shape invariants.  Proved by one
induction on fuel over the whole mutually recursive family.
-/

theorem flattenList_append (a b : List SyntaxNode) :
    flattenList (a ++ b) = flattenList a ++ flattenList b := by
  induction a with
  | nil => simp [flattenList]
  | cons c cs ih => simp [flattenList, ih, List.append_assoc]

theorem nodesOk_append (a b : List SyntaxNode) :
    nodesOk (a ++ b) = (nodesOk a && nodesOk b) := by
  induction a with
  | nil => simp [nodesOk]
  | cons c cs ih => simp [nodesOk, ih, Bool.and_assoc]

theorem isEmpty_append_singleton (a : List SyntaxNode) (n : SyntaxNode) :
    (a ++ [n]).isEmpty = false := by
  cases a <;> rfl

namespace Parser

theorem pbind_eq_ok {α β : Type} {x : PResult α} {k : α → PSt → PResult β}
    {b : β} {st' : PSt} (h : pbind x k = some (.ok (b, st'))) :
    ∃ a stm, x = some (.ok (a, stm)) ∧ k a stm = some (.ok (b, st')) := by
  match x with
  | none => simp [pbind] at h
  | some (.error e) => simp [pbind] at h
  | some (.ok (a, stm)) => exact ⟨a, stm, rfl, h⟩

theorem someOk_inj {α : Type} {a c : α} {b d : PSt}
    (h : (some (.ok (a, b)) : PResult α) = some (.ok (c, d))) :
    a = c ∧ b = d := by
  simpa using h

theorem toksP_refill {st : PSt} {t : Token} (h : st.cur = some t) :
    toksP st = t :: toksP (refill st) := by
  obtain ⟨cur, rest⟩ := st
  cases rest <;> simp_all [toksP, refill]

theorem toksP_init (toks : List Token) : toksP (init toks) = toks := by
  cases toks <;> simp [toksP, init]

theorem parseToken_inv {st : PSt} {n : SyntaxNode} {st' : PSt}
    (h : parseToken st = some (.ok (n, st'))) :
    toksP st = flatten n ++ toksP st' ∧ nodeOk n = true := by
  match hc : st.cur with
  | none => simp [parseToken, hc] at h
  | some t =>
    simp only [parseToken, hc] at h
    obtain ⟨hn, hst⟩ := someOk_inj h
    subst hn; subst hst
    exact ⟨by simpa [flatten, flattenList] using toksP_refill hc,
           by simp [nodeOk, nodesOk]⟩

/-- The invariant, for every procedure of the parse family at one fuel
value. -/
structure Inv (f : Nat) : Prop where
  program : ∀ st n st', parseProgram f st = some (.ok (n, st')) →
    toksP st = flatten n ++ toksP st' ∧ nodeOk n = true
  block : ∀ st n st', parseBlock f st = some (.ok (n, st')) →
    toksP st = flatten n ++ toksP st' ∧ nodeOk n = true
  decls : ∀ st ns st', declLoop f st = some (.ok (ns, st')) →
    toksP st = flattenList ns ++ toksP st' ∧ nodesOk ns = true
  constDecl : ∀ st n st', parseConstDecl f st = some (.ok (n, st')) →
    Token.Keyword .Const :: toksP st = flatten n ++ toksP st' ∧ nodeOk n = true
  constIts : ∀ st ns st', constItems f st = some (.ok (ns, st')) →
    toksP st = flattenList ns ++ toksP st' ∧ nodesOk ns = true
  varDecl : ∀ st n st', parseVarDecl f st = some (.ok (n, st')) →
    Token.Keyword .Var :: toksP st = flatten n ++ toksP st' ∧ nodeOk n = true
  varIts : ∀ st ns st', varItems f st = some (.ok (ns, st')) →
    toksP st = flattenList ns ++ toksP st' ∧ nodesOk ns = true
  funcDecl : ∀ st n st', parseFuncDecl f st = some (.ok (n, st')) →
    Token.Keyword .Func :: toksP st = flatten n ++ toksP st' ∧ nodeOk n = true
  params : ∀ st ns st', paramLoop f st = some (.ok (ns, st')) →
    toksP st = flattenList ns ++ toksP st' ∧ nodesOk ns = true
  stmt : ∀ st n st', parseStatement f st = some (.ok (n, st')) →
    toksP st = flatten n ++ toksP st' ∧ nodeOk n = true
  stmts : ∀ st ns st', stmtLoop f st = some (.ok (ns, st')) →
    toksP st = flattenList ns ++ toksP st' ∧ nodesOk ns = true
  cond : ∀ st n st', parseCondition f st = some (.ok (n, st')) →
    toksP st = flatten n ++ toksP st' ∧ nodeOk n = true
  expr : ∀ st n st', parseExpression f st = some (.ok (n, st')) →
    toksP st = flatten n ++ toksP st' ∧ nodeOk n = true
  expLp : ∀ st ns st', expLoop f st = some (.ok (ns, st')) →
    toksP st = flattenList ns ++ toksP st' ∧ nodesOk ns = true
  term : ∀ st n st', parseTerm f st = some (.ok (n, st')) →
    toksP st = flatten n ++ toksP st' ∧ nodeOk n = true
  termLp : ∀ st ns st', termLoop f st = some (.ok (ns, st')) →
    toksP st = flattenList ns ++ toksP st' ∧ nodesOk ns = true
  factor : ∀ st n st', parseFactor f st = some (.ok (n, st')) →
    toksP st = flatten n ++ toksP st' ∧ nodeOk n = true
  args : ∀ st ns st', argLoop f st = some (.ok (ns, st')) →
    toksP st = flattenList ns ++ toksP st' ∧ nodesOk ns = true

theorem inv_zero : Inv 0 := by
  constructor <;> exact fun st a st' h => nomatch h

theorem inv_program {f : Nat} (ih : Inv f) : ∀ st n st',
    parseProgram (f + 1) st = some (.ok (n, st')) →
    toksP st = flatten n ++ toksP st' ∧ nodeOk n = true := by
  intro st n st' h
  simp only [parseProgram] at h
  obtain ⟨nb, st1, hb, h⟩ := pbind_eq_ok h
  obtain ⟨nt, st2, ht, h⟩ := pbind_eq_ok h
  obtain ⟨hn, hst⟩ := someOk_inj h
  subst hn; subst hst
  obtain ⟨hb1, hb2⟩ := ih.block _ _ _ hb
  obtain ⟨ht1, ht2⟩ := parseToken_inv ht
  refine ⟨?_, ?_⟩
  · rw [hb1, ht1]; simp [flatten, flattenList, List.append_assoc]
  · simp [nodeOk, nodesOk, hb2, ht2]

theorem inv_block {f : Nat} (ih : Inv f) : ∀ st n st',
    parseBlock (f + 1) st = some (.ok (n, st')) →
    toksP st = flatten n ++ toksP st' ∧ nodeOk n = true := by
  intro st n st' h
  simp only [parseBlock] at h
  obtain ⟨ds, st1, hd, h⟩ := pbind_eq_ok h
  obtain ⟨ns, st2, hs, h⟩ := pbind_eq_ok h
  obtain ⟨hn, hst⟩ := someOk_inj h
  subst hn; subst hst
  obtain ⟨hd1, hd2⟩ := ih.decls _ _ _ hd
  obtain ⟨hs1, hs2⟩ := ih.stmt _ _ _ hs
  refine ⟨?_, ?_⟩
  · rw [hd1, hs1]
    simp [flatten, flattenList_append, flattenList, List.append_assoc]
  · simp [nodeOk, nodesOk_append, nodesOk, hd2, hs2, isEmpty_append_singleton]

theorem inv_decls {f : Nat} (ih : Inv f) : ∀ st ns st',
    declLoop (f + 1) st = some (.ok (ns, st')) →
    toksP st = flattenList ns ++ toksP st' ∧ nodesOk ns = true := by
  intro st ns st' h
  rcases hcur : st.cur with _ | tk
  · simp only [declLoop, hcur] at h
    obtain ⟨hn, hst⟩ := someOk_inj h
    subst hn; subst hst
    simp [flattenList, nodesOk]
  · cases tk with
    | Keyword k =>
      cases k with
      | Const =>
        simp only [declLoop, hcur] at h
        obtain ⟨n1, st1, h1, h⟩ := pbind_eq_ok h
        obtain ⟨ns2, st2, h2, h⟩ := pbind_eq_ok h
        obtain ⟨hn, hst⟩ := someOk_inj h
        subst hn; subst hst
        obtain ⟨hc1, hc2⟩ := ih.constDecl _ _ _ h1
        obtain ⟨hr1, hr2⟩ := ih.decls _ _ _ h2
        refine ⟨?_, by simp [nodesOk, hc2, hr2]⟩
        rw [toksP_refill hcur]
        simp only [flattenList]
        rw [List.append_assoc, ← hr1, ← hc1]
      | Var =>
        simp only [declLoop, hcur] at h
        obtain ⟨n1, st1, h1, h⟩ := pbind_eq_ok h
        obtain ⟨ns2, st2, h2, h⟩ := pbind_eq_ok h
        obtain ⟨hn, hst⟩ := someOk_inj h
        subst hn; subst hst
        obtain ⟨hc1, hc2⟩ := ih.varDecl _ _ _ h1
        obtain ⟨hr1, hr2⟩ := ih.decls _ _ _ h2
        refine ⟨?_, by simp [nodesOk, hc2, hr2]⟩
        rw [toksP_refill hcur]
        simp only [flattenList]
        rw [List.append_assoc, ← hr1, ← hc1]
      | Func =>
        simp only [declLoop, hcur] at h
        obtain ⟨n1, st1, h1, h⟩ := pbind_eq_ok h
        obtain ⟨ns2, st2, h2, h⟩ := pbind_eq_ok h
        obtain ⟨hn, hst⟩ := someOk_inj h
        subst hn; subst hst
        obtain ⟨hc1, hc2⟩ := ih.funcDecl _ _ _ h1
        obtain ⟨hr1, hr2⟩ := ih.decls _ _ _ h2
        refine ⟨?_, by simp [nodesOk, hc2, hr2]⟩
        rw [toksP_refill hcur]
        simp only [flattenList]
        rw [List.append_assoc, ← hr1, ← hc1]
      | Begin | End | If | Then | While | Do | Ret | Odd | Write | WriteLn =>
        simp only [declLoop, hcur] at h
        obtain ⟨hn, hst⟩ := someOk_inj h
        subst hn; subst hst
        simp [flattenList, nodesOk]
    | Symbol s =>
      simp only [declLoop, hcur] at h
      obtain ⟨hn, hst⟩ := someOk_inj h
      subst hn; subst hst
      simp [flattenList, nodesOk]
    | Identifier t =>
      simp only [declLoop, hcur] at h
      obtain ⟨hn, hst⟩ := someOk_inj h
      subst hn; subst hst
      simp [flattenList, nodesOk]
    | Number v =>
      simp only [declLoop, hcur] at h
      obtain ⟨hn, hst⟩ := someOk_inj h
      subst hn; subst hst
      simp [flattenList, nodesOk]

theorem inv_constDecl {f : Nat} (ih : Inv f) : ∀ st n st',
    parseConstDecl (f + 1) st = some (.ok (n, st')) →
    Token.Keyword .Const :: toksP st = flatten n ++ toksP st' ∧ nodeOk n = true := by
  intro st n st' h
  simp only [parseConstDecl] at h
  obtain ⟨ns, st1, h1, h⟩ := pbind_eq_ok h
  obtain ⟨nsemi, st2, h2, h⟩ := pbind_eq_ok h
  obtain ⟨hn, hst⟩ := someOk_inj h
  subst hn; subst hst
  obtain ⟨hi1, hi2⟩ := ih.constIts _ _ _ h1
  obtain ⟨ht1, ht2⟩ := parseToken_inv h2
  refine ⟨?_, ?_⟩
  · rw [hi1, ht1]
    simp [flatten, flattenList, flattenList_append, List.append_assoc]
  · simp [nodeOk, nodesOk, nodesOk_append, hi2, ht2]

theorem inv_constIts {f : Nat} (ih : Inv f) : ∀ st ns st',
    constItems (f + 1) st = some (.ok (ns, st')) →
    toksP st = flattenList ns ++ toksP st' ∧ nodesOk ns = true := by
  intro st ns st' h
  simp only [constItems] at h
  obtain ⟨n1, st1, h1, h⟩ := pbind_eq_ok h
  obtain ⟨n2, st2, h2, h⟩ := pbind_eq_ok h
  obtain ⟨n3, st3, h3, h⟩ := pbind_eq_ok h
  obtain ⟨ha1, ha2⟩ := parseToken_inv h1
  obtain ⟨hb1, hb2⟩ := parseToken_inv h2
  obtain ⟨hc1, hc2⟩ := parseToken_inv h3
  rcases hcur : st3.cur with _ | tk
  · simp only [hcur] at h
    obtain ⟨hn, hst⟩ := someOk_inj h
    subst hn; subst hst
    refine ⟨?_, by simp [nodesOk, ha2, hb2, hc2]⟩
    rw [ha1, hb1, hc1]; simp [flattenList, List.append_assoc]
  · cases htk : tk with
    | Symbol s =>
      cases s with
      | Comma =>
        subst htk
        simp only [hcur] at h
        obtain ⟨nc, st4, h4, h⟩ := pbind_eq_ok h
        obtain ⟨ns5, st5, h5, h⟩ := pbind_eq_ok h
        obtain ⟨hn, hst⟩ := someOk_inj h
        subst hn; subst hst
        obtain ⟨hd1, hd2⟩ := parseToken_inv h4
        obtain ⟨he1, he2⟩ := ih.constIts _ _ _ h5
        refine ⟨?_, by simp [nodesOk, ha2, hb2, hc2, hd2, he2]⟩
        rw [ha1, hb1, hc1, hd1, he1]
        simp [flattenList, List.append_assoc]
      | Plus | Minus | Mult | Div | Lparen | Rparen | Equal | Lss | Gtr
      | NotEq | LssEq | GtrEq | Period | SemiColon | Assign =>
        subst htk
        simp only [hcur] at h
        obtain ⟨hn, hst⟩ := someOk_inj h
        subst hn; subst hst
        refine ⟨?_, by simp [nodesOk, ha2, hb2, hc2]⟩
        rw [ha1, hb1, hc1]; simp [flattenList, List.append_assoc]
    | Keyword k =>
      subst htk
      simp only [hcur] at h
      obtain ⟨hn, hst⟩ := someOk_inj h
      subst hn; subst hst
      refine ⟨?_, by simp [nodesOk, ha2, hb2, hc2]⟩
      rw [ha1, hb1, hc1]; simp [flattenList, List.append_assoc]
    | Identifier t =>
      subst htk
      simp only [hcur] at h
      obtain ⟨hn, hst⟩ := someOk_inj h
      subst hn; subst hst
      refine ⟨?_, by simp [nodesOk, ha2, hb2, hc2]⟩
      rw [ha1, hb1, hc1]; simp [flattenList, List.append_assoc]
    | Number v =>
      subst htk
      simp only [hcur] at h
      obtain ⟨hn, hst⟩ := someOk_inj h
      subst hn; subst hst
      refine ⟨?_, by simp [nodesOk, ha2, hb2, hc2]⟩
      rw [ha1, hb1, hc1]; simp [flattenList, List.append_assoc]

theorem inv_varDecl {f : Nat} (ih : Inv f) : ∀ st n st',
    parseVarDecl (f + 1) st = some (.ok (n, st')) →
    Token.Keyword .Var :: toksP st = flatten n ++ toksP st' ∧ nodeOk n = true := by
  intro st n st' h
  simp only [parseVarDecl] at h
  obtain ⟨ns, st1, h1, h⟩ := pbind_eq_ok h
  obtain ⟨nsemi, st2, h2, h⟩ := pbind_eq_ok h
  obtain ⟨hn, hst⟩ := someOk_inj h
  subst hn; subst hst
  obtain ⟨hi1, hi2⟩ := ih.varIts _ _ _ h1
  obtain ⟨ht1, ht2⟩ := parseToken_inv h2
  refine ⟨?_, ?_⟩
  · rw [hi1, ht1]
    simp [flatten, flattenList, flattenList_append, List.append_assoc]
  · simp [nodeOk, nodesOk, nodesOk_append, hi2, ht2]

theorem inv_varIts {f : Nat} (ih : Inv f) : ∀ st ns st',
    varItems (f + 1) st = some (.ok (ns, st')) →
    toksP st = flattenList ns ++ toksP st' ∧ nodesOk ns = true := by
  intro st ns st' h
  simp only [varItems] at h
  obtain ⟨n1, st1, h1, h⟩ := pbind_eq_ok h
  obtain ⟨ha1, ha2⟩ := parseToken_inv h1
  split at h
  · obtain ⟨nc, st2, h2, h⟩ := pbind_eq_ok h
    obtain ⟨ns3, st3, h3, h⟩ := pbind_eq_ok h
    obtain ⟨hn, hst⟩ := someOk_inj h
    subst hn; subst hst
    obtain ⟨hb1, hb2⟩ := parseToken_inv h2
    obtain ⟨hc1, hc2⟩ := ih.varIts _ _ _ h3
    refine ⟨?_, by simp [nodesOk, ha2, hb2, hc2]⟩
    rw [ha1, hb1, hc1]; simp [flattenList, List.append_assoc]
  · obtain ⟨hn, hst⟩ := someOk_inj h
    subst hn; subst hst
    refine ⟨?_, by simp [nodesOk, ha2]⟩
    rw [ha1]; simp [flattenList]

theorem inv_funcDecl {f : Nat} (ih : Inv f) : ∀ st n st',
    parseFuncDecl (f + 1) st = some (.ok (n, st')) →
    Token.Keyword .Func :: toksP st = flatten n ++ toksP st' ∧ nodeOk n = true := by
  intro st n st' h
  simp only [parseFuncDecl] at h
  obtain ⟨nid, st1, h1, h⟩ := pbind_eq_ok h
  obtain ⟨nlp, st2, h2, h⟩ := pbind_eq_ok h
  obtain ⟨ps, st3, h3, h⟩ := pbind_eq_ok h
  obtain ⟨nrp, st4, h4, h⟩ := pbind_eq_ok h
  obtain ⟨nblk, st5, h5, h⟩ := pbind_eq_ok h
  obtain ⟨nsemi, st6, h6, h⟩ := pbind_eq_ok h
  obtain ⟨hn, hst⟩ := someOk_inj h
  subst hn; subst hst
  obtain ⟨ha1, ha2⟩ := parseToken_inv h1
  obtain ⟨hb1, hb2⟩ := parseToken_inv h2
  obtain ⟨hc1, hc2⟩ := ih.params _ _ _ h3
  obtain ⟨hd1, hd2⟩ := parseToken_inv h4
  obtain ⟨he1, he2⟩ := ih.block _ _ _ h5
  obtain ⟨hg1, hg2⟩ := parseToken_inv h6
  refine ⟨?_, ?_⟩
  · rw [ha1, hb1, hc1, hd1, he1, hg1]
    simp [flatten, flattenList, flattenList_append, List.append_assoc]
  · simp [nodeOk, nodesOk, nodesOk_append, ha2, hb2, hc2, hd2, he2, hg2]

theorem inv_params {f : Nat} (ih : Inv f) : ∀ st ns st',
    paramLoop (f + 1) st = some (.ok (ns, st')) →
    toksP st = flattenList ns ++ toksP st' ∧ nodesOk ns = true := by
  intro st ns st' h
  simp only [paramLoop] at h
  split at h
  · obtain ⟨n1, st1, h1, h⟩ := pbind_eq_ok h
    obtain ⟨ha1, ha2⟩ := parseToken_inv h1
    split at h
    · obtain ⟨nc, st2, h2, h⟩ := pbind_eq_ok h
      obtain ⟨ns3, st3, h3, h⟩ := pbind_eq_ok h
      obtain ⟨hn, hst⟩ := someOk_inj h
      subst hn; subst hst
      obtain ⟨hb1, hb2⟩ := parseToken_inv h2
      obtain ⟨hc1, hc2⟩ := ih.params _ _ _ h3
      refine ⟨?_, by simp [nodesOk, ha2, hb2, hc2]⟩
      rw [ha1, hb1, hc1]; simp [flattenList, List.append_assoc]
    · obtain ⟨hn, hst⟩ := someOk_inj h
      subst hn; subst hst
      refine ⟨?_, by simp [nodesOk, ha2]⟩
      rw [ha1]; simp [flattenList]
  · obtain ⟨hn, hst⟩ := someOk_inj h
    subst hn; subst hst
    simp [flattenList, nodesOk]

theorem inv_stmt {f : Nat} (ih : Inv f) : ∀ st n st',
    parseStatement (f + 1) st = some (.ok (n, st')) →
    toksP st = flatten n ++ toksP st' ∧ nodeOk n = true := by
  intro st n st' h
  simp only [parseStatement] at h
  split at h
  · -- assignment: ident, ':=' position, expression
    obtain ⟨nid, st1, h1, h⟩ := pbind_eq_ok h
    obtain ⟨nasgn, st2, h2, h⟩ := pbind_eq_ok h
    obtain ⟨ne, st3, h3, h⟩ := pbind_eq_ok h
    obtain ⟨hn, hst⟩ := someOk_inj h
    subst hn; subst hst
    obtain ⟨ha1, ha2⟩ := parseToken_inv h1
    obtain ⟨hb1, hb2⟩ := parseToken_inv h2
    obtain ⟨hc1, hc2⟩ := ih.expr _ _ _ h3
    refine ⟨?_, by simp [nodeOk, nodesOk, ha2, hb2, hc2]⟩
    rw [ha1, hb1, hc1]; simp [flatten, flattenList, List.append_assoc]
  · -- begin … end
    obtain ⟨nb, st1, h1, h⟩ := pbind_eq_ok h
    obtain ⟨ns2, st2, h2, h⟩ := pbind_eq_ok h
    obtain ⟨nend, st3, h3, h⟩ := pbind_eq_ok h
    obtain ⟨hn, hst⟩ := someOk_inj h
    subst hn; subst hst
    obtain ⟨ha1, ha2⟩ := parseToken_inv h1
    obtain ⟨hb1, hb2⟩ := ih.stmts _ _ _ h2
    obtain ⟨hc1, hc2⟩ := parseToken_inv h3
    refine ⟨?_, by simp [nodeOk, nodesOk, nodesOk_append, ha2, hb2, hc2]⟩
    rw [ha1, hb1, hc1]
    simp [flatten, flattenList, flattenList_append, List.append_assoc]
  · -- if Condition then Statement
    obtain ⟨nif, st1, h1, h⟩ := pbind_eq_ok h
    obtain ⟨nc, st2, h2, h⟩ := pbind_eq_ok h
    obtain ⟨nthen, st3, h3, h⟩ := pbind_eq_ok h
    obtain ⟨nst, st4, h4, h⟩ := pbind_eq_ok h
    obtain ⟨hn, hst⟩ := someOk_inj h
    subst hn; subst hst
    obtain ⟨ha1, ha2⟩ := parseToken_inv h1
    obtain ⟨hb1, hb2⟩ := ih.cond _ _ _ h2
    obtain ⟨hc1, hc2⟩ := parseToken_inv h3
    obtain ⟨hd1, hd2⟩ := ih.stmt _ _ _ h4
    refine ⟨?_, by simp [nodeOk, nodesOk, ha2, hb2, hc2, hd2]⟩
    rw [ha1, hb1, hc1, hd1]; simp [flatten, flattenList, List.append_assoc]
  · -- while Condition do Statement
    obtain ⟨nw, st1, h1, h⟩ := pbind_eq_ok h
    obtain ⟨nc, st2, h2, h⟩ := pbind_eq_ok h
    obtain ⟨ndo, st3, h3, h⟩ := pbind_eq_ok h
    obtain ⟨nst, st4, h4, h⟩ := pbind_eq_ok h
    obtain ⟨hn, hst⟩ := someOk_inj h
    subst hn; subst hst
    obtain ⟨ha1, ha2⟩ := parseToken_inv h1
    obtain ⟨hb1, hb2⟩ := ih.cond _ _ _ h2
    obtain ⟨hc1, hc2⟩ := parseToken_inv h3
    obtain ⟨hd1, hd2⟩ := ih.stmt _ _ _ h4
    refine ⟨?_, by simp [nodeOk, nodesOk, ha2, hb2, hc2, hd2]⟩
    rw [ha1, hb1, hc1, hd1]; simp [flatten, flattenList, List.append_assoc]
  · -- return Expression
    obtain ⟨nr, st1, h1, h⟩ := pbind_eq_ok h
    obtain ⟨ne, st2, h2, h⟩ := pbind_eq_ok h
    obtain ⟨hn, hst⟩ := someOk_inj h
    subst hn; subst hst
    obtain ⟨ha1, ha2⟩ := parseToken_inv h1
    obtain ⟨hb1, hb2⟩ := ih.expr _ _ _ h2
    refine ⟨?_, by simp [nodeOk, nodesOk, ha2, hb2]⟩
    rw [ha1, hb1]; simp [flatten, flattenList, List.append_assoc]
  · -- write Expression
    obtain ⟨nw, st1, h1, h⟩ := pbind_eq_ok h
    obtain ⟨ne, st2, h2, h⟩ := pbind_eq_ok h
    obtain ⟨hn, hst⟩ := someOk_inj h
    subst hn; subst hst
    obtain ⟨ha1, ha2⟩ := parseToken_inv h1
    obtain ⟨hb1, hb2⟩ := ih.expr _ _ _ h2
    refine ⟨?_, by simp [nodeOk, nodesOk, ha2, hb2]⟩
    rw [ha1, hb1]; simp [flatten, flattenList, List.append_assoc]
  · -- writeln
    obtain ⟨nw, st1, h1, h⟩ := pbind_eq_ok h
    obtain ⟨hn, hst⟩ := someOk_inj h
    subst hn; subst hst
    obtain ⟨ha1, ha2⟩ := parseToken_inv h1
    refine ⟨?_, by simp [nodeOk, nodesOk, ha2]⟩
    rw [ha1]; simp [flatten, flattenList]
  · -- empty statement
    obtain ⟨hn, hst⟩ := someOk_inj h
    subst hn; subst hst
    simp [flatten, flattenList, nodeOk, nodesOk]

theorem inv_stmts {f : Nat} (ih : Inv f) : ∀ st ns st',
    stmtLoop (f + 1) st = some (.ok (ns, st')) →
    toksP st = flattenList ns ++ toksP st' ∧ nodesOk ns = true := by
  intro st ns st' h
  simp only [stmtLoop] at h
  obtain ⟨n1, st1, h1, h⟩ := pbind_eq_ok h
  obtain ⟨ha1, ha2⟩ := ih.stmt _ _ _ h1
  split at h
  · obtain ⟨nsemi, st2, h2, h⟩ := pbind_eq_ok h
    obtain ⟨ns3, st3, h3, h⟩ := pbind_eq_ok h
    obtain ⟨hn, hst⟩ := someOk_inj h
    subst hn; subst hst
    obtain ⟨hb1, hb2⟩ := parseToken_inv h2
    obtain ⟨hc1, hc2⟩ := ih.stmts _ _ _ h3
    refine ⟨?_, by simp [nodesOk, ha2, hb2, hc2]⟩
    rw [ha1, hb1, hc1]; simp [flattenList, List.append_assoc]
  · obtain ⟨hn, hst⟩ := someOk_inj h
    subst hn; subst hst
    refine ⟨?_, by simp [nodesOk, ha2]⟩
    rw [ha1]; simp [flattenList]

theorem inv_cond {f : Nat} (ih : Inv f) : ∀ st n st',
    parseCondition (f + 1) st = some (.ok (n, st')) →
    toksP st = flatten n ++ toksP st' ∧ nodeOk n = true := by
  intro st n st' h
  simp only [parseCondition] at h
  split at h
  · -- odd Expression
    obtain ⟨nodd, st1, h1, h⟩ := pbind_eq_ok h
    obtain ⟨ne, st2, h2, h⟩ := pbind_eq_ok h
    obtain ⟨hn, hst⟩ := someOk_inj h
    subst hn; subst hst
    obtain ⟨ha1, ha2⟩ := parseToken_inv h1
    obtain ⟨hb1, hb2⟩ := ih.expr _ _ _ h2
    refine ⟨?_, by simp [nodeOk, nodesOk, ha2, hb2]⟩
    rw [ha1, hb1]; simp [flatten, flattenList, List.append_assoc]
  · -- Expression relop Expression
    obtain ⟨ne1, st1, h1, h⟩ := pbind_eq_ok h
    obtain ⟨nop, st2, h2, h⟩ := pbind_eq_ok h
    obtain ⟨ne2, st3, h3, h⟩ := pbind_eq_ok h
    obtain ⟨hn, hst⟩ := someOk_inj h
    subst hn; subst hst
    obtain ⟨ha1, ha2⟩ := ih.expr _ _ _ h1
    obtain ⟨hb1, hb2⟩ := parseToken_inv h2
    obtain ⟨hc1, hc2⟩ := ih.expr _ _ _ h3
    refine ⟨?_, by simp [nodeOk, nodesOk, ha2, hb2, hc2]⟩
    rw [ha1, hb1, hc1]; simp [flatten, flattenList, List.append_assoc]

theorem inv_expr {f : Nat} (ih : Inv f) : ∀ st n st',
    parseExpression (f + 1) st = some (.ok (n, st')) →
    toksP st = flatten n ++ toksP st' ∧ nodeOk n = true := by
  intro st n st' h
  simp only [parseExpression] at h
  split at h
  · -- leading '+'
    obtain ⟨nsgn, st1, h1, h⟩ := pbind_eq_ok h
    obtain ⟨nt, st2, h2, h⟩ := pbind_eq_ok h
    obtain ⟨ns3, st3, h3, h⟩ := pbind_eq_ok h
    obtain ⟨hn, hst⟩ := someOk_inj h
    subst hn; subst hst
    obtain ⟨ha1, ha2⟩ := parseToken_inv h1
    obtain ⟨hb1, hb2⟩ := ih.term _ _ _ h2
    obtain ⟨hc1, hc2⟩ := ih.expLp _ _ _ h3
    refine ⟨?_, by simp [nodeOk, nodesOk, ha2, hb2, hc2]⟩
    rw [ha1, hb1, hc1]; simp [flatten, flattenList, List.append_assoc]
  · -- leading '-'
    obtain ⟨nsgn, st1, h1, h⟩ := pbind_eq_ok h
    obtain ⟨nt, st2, h2, h⟩ := pbind_eq_ok h
    obtain ⟨ns3, st3, h3, h⟩ := pbind_eq_ok h
    obtain ⟨hn, hst⟩ := someOk_inj h
    subst hn; subst hst
    obtain ⟨ha1, ha2⟩ := parseToken_inv h1
    obtain ⟨hb1, hb2⟩ := ih.term _ _ _ h2
    obtain ⟨hc1, hc2⟩ := ih.expLp _ _ _ h3
    refine ⟨?_, by simp [nodeOk, nodesOk, ha2, hb2, hc2]⟩
    rw [ha1, hb1, hc1]; simp [flatten, flattenList, List.append_assoc]
  · -- no sign
    obtain ⟨nt, st1, h1, h⟩ := pbind_eq_ok h
    obtain ⟨ns2, st2, h2, h⟩ := pbind_eq_ok h
    obtain ⟨hn, hst⟩ := someOk_inj h
    subst hn; subst hst
    obtain ⟨ha1, ha2⟩ := ih.term _ _ _ h1
    obtain ⟨hb1, hb2⟩ := ih.expLp _ _ _ h2
    refine ⟨?_, by simp [nodeOk, nodesOk, ha2, hb2]⟩
    rw [ha1, hb1]; simp [flatten, flattenList, List.append_assoc]

theorem inv_expLp {f : Nat} (ih : Inv f) : ∀ st ns st',
    expLoop (f + 1) st = some (.ok (ns, st')) →
    toksP st = flattenList ns ++ toksP st' ∧ nodesOk ns = true := by
  intro st ns st' h
  simp only [expLoop] at h
  split at h
  · -- '+' Term, continue
    obtain ⟨nop, st1, h1, h⟩ := pbind_eq_ok h
    obtain ⟨nt, st2, h2, h⟩ := pbind_eq_ok h
    obtain ⟨ns3, st3, h3, h⟩ := pbind_eq_ok h
    obtain ⟨hn, hst⟩ := someOk_inj h
    subst hn; subst hst
    obtain ⟨ha1, ha2⟩ := parseToken_inv h1
    obtain ⟨hb1, hb2⟩ := ih.term _ _ _ h2
    obtain ⟨hc1, hc2⟩ := ih.expLp _ _ _ h3
    refine ⟨?_, by simp [nodesOk, ha2, hb2, hc2]⟩
    rw [ha1, hb1, hc1]; simp [flattenList, List.append_assoc]
  · -- '-' Term, continue
    obtain ⟨nop, st1, h1, h⟩ := pbind_eq_ok h
    obtain ⟨nt, st2, h2, h⟩ := pbind_eq_ok h
    obtain ⟨ns3, st3, h3, h⟩ := pbind_eq_ok h
    obtain ⟨hn, hst⟩ := someOk_inj h
    subst hn; subst hst
    obtain ⟨ha1, ha2⟩ := parseToken_inv h1
    obtain ⟨hb1, hb2⟩ := ih.term _ _ _ h2
    obtain ⟨hc1, hc2⟩ := ih.expLp _ _ _ h3
    refine ⟨?_, by simp [nodesOk, ha2, hb2, hc2]⟩
    rw [ha1, hb1, hc1]; simp [flattenList, List.append_assoc]
  · -- any other Symbol: break with nothing appended
    obtain ⟨hn, hst⟩ := someOk_inj h
    subst hn; subst hst
    simp [flattenList, nodesOk]
  · -- non-Symbol: the loop spins; only the recursion at smaller fuel
    exact ih.expLp _ _ _ h

theorem inv_term {f : Nat} (ih : Inv f) : ∀ st n st',
    parseTerm (f + 1) st = some (.ok (n, st')) →
    toksP st = flatten n ++ toksP st' ∧ nodeOk n = true := by
  intro st n st' h
  simp only [parseTerm] at h
  obtain ⟨nf, st1, h1, h⟩ := pbind_eq_ok h
  obtain ⟨ns2, st2, h2, h⟩ := pbind_eq_ok h
  obtain ⟨hn, hst⟩ := someOk_inj h
  subst hn; subst hst
  obtain ⟨ha1, ha2⟩ := ih.factor _ _ _ h1
  obtain ⟨hb1, hb2⟩ := ih.termLp _ _ _ h2
  refine ⟨?_, by simp [nodeOk, nodesOk, ha2, hb2]⟩
  rw [ha1, hb1]; simp [flatten, flattenList, List.append_assoc]

theorem inv_termLp {f : Nat} (ih : Inv f) : ∀ st ns st',
    termLoop (f + 1) st = some (.ok (ns, st')) →
    toksP st = flattenList ns ++ toksP st' ∧ nodesOk ns = true := by
  intro st ns st' h
  simp only [termLoop] at h
  split at h
  · -- '*' Factor, continue
    obtain ⟨nop, st1, h1, h⟩ := pbind_eq_ok h
    obtain ⟨nf, st2, h2, h⟩ := pbind_eq_ok h
    obtain ⟨ns3, st3, h3, h⟩ := pbind_eq_ok h
    obtain ⟨hn, hst⟩ := someOk_inj h
    subst hn; subst hst
    obtain ⟨ha1, ha2⟩ := parseToken_inv h1
    obtain ⟨hb1, hb2⟩ := ih.factor _ _ _ h2
    obtain ⟨hc1, hc2⟩ := ih.termLp _ _ _ h3
    refine ⟨?_, by simp [nodesOk, ha2, hb2, hc2]⟩
    rw [ha1, hb1, hc1]; simp [flattenList, List.append_assoc]
  · -- '/' Factor, continue
    obtain ⟨nop, st1, h1, h⟩ := pbind_eq_ok h
    obtain ⟨nf, st2, h2, h⟩ := pbind_eq_ok h
    obtain ⟨ns3, st3, h3, h⟩ := pbind_eq_ok h
    obtain ⟨hn, hst⟩ := someOk_inj h
    subst hn; subst hst
    obtain ⟨ha1, ha2⟩ := parseToken_inv h1
    obtain ⟨hb1, hb2⟩ := ih.factor _ _ _ h2
    obtain ⟨hc1, hc2⟩ := ih.termLp _ _ _ h3
    refine ⟨?_, by simp [nodesOk, ha2, hb2, hc2]⟩
    rw [ha1, hb1, hc1]; simp [flattenList, List.append_assoc]
  · -- any other Symbol: break
    obtain ⟨hn, hst⟩ := someOk_inj h
    subst hn; subst hst
    simp [flattenList, nodesOk]
  · -- non-Symbol: spin
    exact ih.termLp _ _ _ h

theorem inv_factor {f : Nat} (ih : Inv f) : ∀ st n st',
    parseFactor (f + 1) st = some (.ok (n, st')) →
    toksP st = flatten n ++ toksP st' ∧ nodeOk n = true := by
  intro st n st' h
  simp only [parseFactor] at h
  split at h
  · -- identifier
    obtain ⟨nid, st1, h1, h⟩ := pbind_eq_ok h
    obtain ⟨ha1, ha2⟩ := parseToken_inv h1
    split at h
    · -- call shape
      obtain ⟨nlp, st2, h2, h⟩ := pbind_eq_ok h
      obtain ⟨hb1, hb2⟩ := parseToken_inv h2
      split at h
      · -- empty argument list
        obtain ⟨nrp, st3, h3, h⟩ := pbind_eq_ok h
        obtain ⟨hn, hst⟩ := someOk_inj h
        subst hn; subst hst
        obtain ⟨hc1, hc2⟩ := parseToken_inv h3
        refine ⟨?_, by simp [nodeOk, nodesOk, ha2, hb2, hc2]⟩
        rw [ha1, hb1, hc1]; simp [flatten, flattenList, List.append_assoc]
      · -- argument list
        obtain ⟨args, st3, h3, h⟩ := pbind_eq_ok h
        obtain ⟨nrp, st4, h4, h⟩ := pbind_eq_ok h
        obtain ⟨hn, hst⟩ := someOk_inj h
        subst hn; subst hst
        obtain ⟨hc1, hc2⟩ := ih.args _ _ _ h3
        obtain ⟨hd1, hd2⟩ := parseToken_inv h4
        refine ⟨?_, by simp [nodeOk, nodesOk, nodesOk_append, ha2, hb2, hc2, hd2]⟩
        rw [ha1, hb1, hc1, hd1]
        simp [flatten, flattenList, flattenList_append, List.append_assoc]
    · -- bare reference
      obtain ⟨hn, hst⟩ := someOk_inj h
      subst hn; subst hst
      refine ⟨?_, by simp [nodeOk, nodesOk, ha2]⟩
      rw [ha1]; simp [flatten, flattenList]
  · -- number
    obtain ⟨nn, st1, h1, h⟩ := pbind_eq_ok h
    obtain ⟨hn, hst⟩ := someOk_inj h
    subst hn; subst hst
    obtain ⟨ha1, ha2⟩ := parseToken_inv h1
    refine ⟨?_, by simp [nodeOk, nodesOk, ha2]⟩
    rw [ha1]; simp [flatten, flattenList]
  · -- any Symbol: parenthesised expression shape
    obtain ⟨nlp, st1, h1, h⟩ := pbind_eq_ok h
    obtain ⟨ne, st2, h2, h⟩ := pbind_eq_ok h
    obtain ⟨nrp, st3, h3, h⟩ := pbind_eq_ok h
    obtain ⟨hn, hst⟩ := someOk_inj h
    subst hn; subst hst
    obtain ⟨ha1, ha2⟩ := parseToken_inv h1
    obtain ⟨hb1, hb2⟩ := ih.expr _ _ _ h2
    obtain ⟨hc1, hc2⟩ := parseToken_inv h3
    refine ⟨?_, by simp [nodeOk, nodesOk, ha2, hb2, hc2]⟩
    rw [ha1, hb1, hc1]; simp [flatten, flattenList, List.append_assoc]
  · -- keyword or buffered Err: stuck, not an .ok result
    exact absurd h (by simp)

theorem inv_args {f : Nat} (ih : Inv f) : ∀ st ns st',
    argLoop (f + 1) st = some (.ok (ns, st')) →
    toksP st = flattenList ns ++ toksP st' ∧ nodesOk ns = true := by
  intro st ns st' h
  simp only [argLoop] at h
  obtain ⟨n1, st1, h1, h⟩ := pbind_eq_ok h
  obtain ⟨ha1, ha2⟩ := ih.expr _ _ _ h1
  split at h
  · obtain ⟨nc, st2, h2, h⟩ := pbind_eq_ok h
    obtain ⟨ns3, st3, h3, h⟩ := pbind_eq_ok h
    obtain ⟨hn, hst⟩ := someOk_inj h
    subst hn; subst hst
    obtain ⟨hb1, hb2⟩ := parseToken_inv h2
    obtain ⟨hc1, hc2⟩ := ih.args _ _ _ h3
    refine ⟨?_, by simp [nodesOk, ha2, hb2, hc2]⟩
    rw [ha1, hb1, hc1]; simp [flattenList, List.append_assoc]
  · obtain ⟨hn, hst⟩ := someOk_inj h
    subst hn; subst hst
    refine ⟨?_, by simp [nodesOk, ha2]⟩
    rw [ha1]; simp [flattenList]

theorem inv_succ {f : Nat} (ih : Inv f) : Inv (f + 1) :=
  ⟨inv_program ih, inv_block ih, inv_decls ih, inv_constDecl ih,
   inv_constIts ih, inv_varDecl ih, inv_varIts ih, inv_funcDecl ih,
   inv_params ih, inv_stmt ih, inv_stmts ih, inv_cond ih, inv_expr ih,
   inv_expLp ih, inv_term ih, inv_termLp ih, inv_factor ih, inv_args ih⟩

theorem inv_all : ∀ f, Inv f
  | 0 => inv_zero
  | f + 1 => inv_succ (inv_all f)

end Parser

namespace Tokenizer

theorem commentLoop_at_eof : ∀ f, commentLoop f ⟨42, []⟩ = none := by
  intro f
  induction f with
  | zero => rfl
  | succ g ih =>
    simp only [commentLoop, readUntil, advOrKeep, readNextByte]
    exact ih

end Tokenizer

/-!
## Claim theorems
-/

/-- C1, counterexample.  The claim says flattening the accepted tree's
Terminal tokens yields exactly the lexer's token sequence.  For the input
`"x:=1. y "` the parser accepts (it never checks for end of input after
the Program's period position), flattening gives the four consumed
tokens, but the lexer alone also yields the trailing `y`. -/
theorem C1_counterexample :
    Parser.parseInput 64 64 (bytesOfAscii "x:=1. y ")
      = some (.ok (c1Tree, ⟨some (.Identifier "y"), []⟩)) ∧
    Tokenizer.tokensOfInput 64 (bytesOfAscii "x:=1. y ") = some c1Toks ∧
    flatten c1Tree ≠ c1Toks := by
  refine ⟨by rfl, by rfl, by decide⟩

/-- C1, amended.  For every input whose lexer-alone token sequence is
`toks` and which the parser accepts with tree `n`, flattening the
Terminal tokens of `n` in left-to-right order yields exactly the prefix
of `toks` the parser consumed: `flatten n ++ (unconsumed suffix) = toks`.
Equality with the whole of `toks` holds exactly when the parser consumed
the entire sequence. -/
theorem C1_flatten_is_consumed_prefix :
    ∀ (lexFuel parseFuel : Nat) (bytes : List Nat) (toks : List Token)
      (n : SyntaxNode) (st' : PSt),
    Tokenizer.tokensOfInput lexFuel bytes = some toks →
    Parser.parseToks parseFuel toks = some (.ok (n, st')) →
    flatten n ++ Parser.toksP st' = toks := by
  intro lexFuel parseFuel bytes toks n st' _ hp
  have h := (Parser.inv_all parseFuel).program _ _ _ hp
  rw [Parser.toksP_init] at h
  exact h.1.symm

/-- C1, witness: the amended claim at the concrete input `"x:=1. y "`. -/
theorem C1_flatten_is_consumed_prefix_witness :
    flatten c1Tree ++ Parser.toksP ⟨some (.Identifier "y"), []⟩ = c1Toks :=
  C1_flatten_is_consumed_prefix 64 64 (bytesOfAscii "x:=1. y ") c1Toks
    c1Tree ⟨some (.Identifier "y"), []⟩ (by rfl) (by rfl)

/-- C2.  With `current_byte = '<'`: a following `'='` is consumed and one
`LssEq` token is produced (also when the `'='` is the last byte of the
stream) — never the two tokens `Lss`, `Equal`; a following byte that
completes no two-byte operator (neither `'='` nor `'>'`, which would give
`NotEq`) produces a lone `Lss` token and remains buffered as the current
byte for the next `get_next_token` call. -/
theorem C2_compound_operator :
    ∀ (f c b : Nat) (r : List Nat),
    Tokenizer.getNextToken (f + 1) ⟨60, 61 :: c :: r⟩
      = some (.ok (.Symbol .LssEq, ⟨c, r⟩)) ∧
    Tokenizer.getNextToken (f + 1) ⟨60, [61]⟩
      = some (.ok (.Symbol .LssEq, ⟨61, []⟩)) ∧
    (CharClass.fromU8 b ≠ .Equal → CharClass.fromU8 b ≠ .Gtr →
      Tokenizer.getNextToken (f + 1) ⟨60, b :: r⟩
        = some (.ok (.Symbol .Lss, ⟨b, r⟩))) := by
  intro f c b r
  refine ⟨?_, ?_, ?_⟩
  · simp [Tokenizer.getNextToken, Tokenizer.skipWs, Tokenizer.skipWsAux,
      Tokenizer.isWs, Tokenizer.advOrKeep, Tokenizer.readNextByte,
      CharClass.fromU8]
  · simp [Tokenizer.getNextToken, Tokenizer.skipWs, Tokenizer.skipWsAux,
      Tokenizer.isWs, Tokenizer.advOrKeep, Tokenizer.readNextByte,
      CharClass.fromU8]
  · intro hb1 hb2
    show (match CharClass.fromU8 b with
          | CharClass.Equal =>
            some (Except.ok (Token.Symbol Symbol.LssEq, Tokenizer.advOrKeep ⟨b, r⟩))
          | CharClass.Gtr =>
            some (Except.ok (Token.Symbol Symbol.NotEq, Tokenizer.advOrKeep ⟨b, r⟩))
          | _ => some (Except.ok (Token.Symbol Symbol.Lss, (⟨b, r⟩ : TokSt))))
        = some (.ok (.Symbol .Lss, ⟨b, r⟩))
    cases hcb : CharClass.fromU8 b with
    | Equal => exact (hb1 hcb).elim
    | Gtr => exact (hb2 hcb).elim
    | Digit | Letter | Plus | Minus | Aster | Slash | Lparen | Rparen
    | Lss | Comma | Period | Semicolon | Colon | Other => rfl

/-- C2, witness at `f = 0`, `c = b = 'a'`, `r = []`. -/
theorem C2_compound_operator_witness :
    Tokenizer.getNextToken 1 ⟨60, [61, 97]⟩
      = some (.ok (.Symbol .LssEq, ⟨97, []⟩)) ∧
    Tokenizer.getNextToken 1 ⟨60, [97]⟩
      = some (.ok (.Symbol .Lss, ⟨97, []⟩)) :=
  ⟨(C2_compound_operator 0 97 97 []).1,
   (C2_compound_operator 0 97 97 []).2.2 (by decide) (by decide)⟩

/-- C3 (code bug).  The claim says an input ending inside a comment span
makes `get_next_token` return `CommentNotTerminated`.  The source clearly
intends that (its comment loop maps `ErrorKind::UnexpectedEof` to that
error), but `_read_until` uses `BufRead::read_until`, which reports end of
stream as `Ok`, so that arm is dead: on `"/*a"` the comment loop rereads
the empty tail forever and `get_next_token` never returns at all — for
every fuel bound the model yields `none` (in particular it never returns
`CommentNotTerminated`, and never a token either). -/
theorem C3_unterminated_comment_diverges :
    ∀ fuel, Tokenizer.getNextToken fuel (Tokenizer.new (bytesOfAscii "/*a"))
      = none := by
  intro fuel
  cases fuel with
  | zero => rfl
  | succ f =>
    have h97 : ∀ g, Tokenizer.commentLoop g ⟨42, [97]⟩ = none := by
      intro g
      cases g with
      | zero => rfl
      | succ g' =>
        simp only [Tokenizer.commentLoop, Tokenizer.readUntil,
          Tokenizer.advOrKeep, Tokenizer.readNextByte]
        exact Tokenizer.commentLoop_at_eof g'
    show (match Tokenizer.commentLoop f ⟨42, [97]⟩ with
          | none => (none : Option (Except TokenizerError (Token × TokSt)))
          | some st2 => Tokenizer.getNextToken f st2)
        = none
    rw [h97 f]

/-- C4 (code bug).  The claim (and spec §4.2) says a token outside a
production's first-set aborts parsing with a `SyntaxError` naming the
expectation.  `parser.rs` contains no error type and no check at all:
`parse_token` wraps whatever the current token is.  On the sole token
`';'` — outside every first-set of the Program/period position — the
parser happily returns a complete tree with the semicolon sitting in the
period position. -/
theorem C4_accepts_outside_first_set :
    Parser.parseInput 64 64 (bytesOfAscii "; ")
      = some (.ok (c4Tree, ⟨none, []⟩)) := by
  rfl

/-- C5 (code bug).  The claim says an exhausted stream with no partial
token (including the empty input) yields `ReachedEOF`, never
`UndefinedToken`.  Whitespace-only input does yield `ReachedEOF`, but on
the EMPTY input `Tokenizer::new` discards the failure of its initial
`read_exact`, leaving `current_byte` as the buffer initializer `0`, which
classifies as `Other` and is reported as `UndefinedToken`. -/
theorem C5_empty_input_misreported :
    Tokenizer.getNextToken 9 (Tokenizer.new [])
      = some (.error .UndefinedToken) ∧
    Tokenizer.getNextToken 9 (Tokenizer.new (bytesOfAscii " "))
      = some (.error .ReachedEOF) ∧
    TokenizerError.UndefinedToken ≠ TokenizerError.ReachedEOF := by
  refine ⟨by rfl, by rfl, by decide⟩

/-- C6, counterexample.  The inputs `"x:=a<=b. "` and `"x:=a< =b. "`
differ only in the placement of one whitespace byte, both are accepted,
yet the trees differ (`LssEq` versus `Lss` in the period position): the
inserted space splits the `<=` token. -/
theorem C6_counterexample :
    Parser.parseInput 64 64 (bytesOfAscii "x:=a<=b. ")
      = some (.ok (c6TreeA, ⟨some (.Identifier "b"), [.Symbol .Period]⟩)) ∧
    Parser.parseInput 64 64 (bytesOfAscii "x:=a< =b. ")
      = some (.ok (c6TreeB,
          ⟨some (.Symbol .Equal), [.Identifier "b", .Symbol .Period]⟩)) ∧
    c6TreeA ≠ c6TreeB := by
  refine ⟨by rfl, by rfl, by decide⟩

/-- C6, amended.  Two inputs differing only in whitespace and comment
placement parse to structurally identical trees provided the difference
preserves the lexed token sequence (whitespace or comments inserted at
token boundaries; a space inside a compound operator changes the tokens
and may change the tree): equal token sequences give equal parse
results. -/
theorem C6_token_preserving_parse_equal :
    ∀ (fa fb pf : Nat) (a b : List Nat) (toks : List Token),
    Tokenizer.tokensOfInput fa a = some toks →
    Tokenizer.tokensOfInput fb b = some toks →
    Parser.parseInput fa pf a = Parser.parseInput fb pf b := by
  intro fa fb pf a b toks ha hb
  simp [Parser.parseInput, ha, hb]

/-- C6, witness: `"x:=1. "` and `"x := 1 . "` lex to the same tokens, so
they parse identically. -/
theorem C6_token_preserving_parse_equal_witness :
    Parser.parseInput 64 64 (bytesOfAscii "x:=1. ")
      = Parser.parseInput 64 64 (bytesOfAscii "x := 1 . ") :=
  C6_token_preserving_parse_equal 64 64 64
    (bytesOfAscii "x:=1. ") (bytesOfAscii "x := 1 . ")
    [.Identifier "x", .Symbol .Assign, .Number 1, .Symbol .Period]
    (by rfl) (by rfl)

/-- C7, counterexample.  The claim says a Terminal node emits exactly one
tag named for the token's kind whose body is the token's literal text.
The visitor actually prints an opening/closing pair (two lines) whose tag
name is the `Debug` rendering `Token(Number(5))`, with no body. -/
theorem C7_counterexample :
    Visitor.visit (.mk (.Token (.Number 5)) [])
      = ["<Token(Number(5))>", "</Token(Number(5))>"] ∧
    (Visitor.visit (.mk (.Token (.Number 5)) [])).length ≠ 1 := by
  refine ⟨by rfl, by decide⟩

/-- C7, amended.  The emitter does walk the tree depth-first pre-order —
an opening tag line, the children's lines in stored order one level
deeper, the matching closing tag line, with indentation equal to depth —
but a Terminal emits an opening/closing pair of tags named by the `Debug`
rendering of `Token(<token>)` (keywords/operators appear as Rust variant
names, identifiers quoted, numbers decimal) and no body line. -/
theorem C7_preorder_debug_tags :
    (∀ (stv : VisitorSt) (n : SyntaxNode),
      Visitor.visitNode stv n
        = ⟨stv.depth, stv.out ++ Visitor.emitLines stv.depth n⟩) ∧
    (∀ (d : Nat) (s : Syntax) (cs : List SyntaxNode),
      Visitor.emitLines d (.mk s cs)
        = (indentStr d ++ "<" ++ dbgSyntax s ++ ">")
            :: (Visitor.emitList (d + 1) cs
                ++ [indentStr d ++ "</" ++ dbgSyntax s ++ ">"])) ∧
    (∀ (d : Nat) (t : Token),
      Visitor.emitLines d (.mk (.Token t) [])
        = [indentStr d ++ "<" ++ dbgSyntax (.Token t) ++ ">",
           indentStr d ++ "</" ++ dbgSyntax (.Token t) ++ ">"]) := by
  refine ⟨Visitor.visitNode_emit, fun d s cs => by rfl,
    fun d t => by simp [Visitor.emitLines, Visitor.emitList]⟩

/-- C8.  Every tree the parser returns satisfies the shape invariants:
Terminal nodes wrap exactly one token (intrinsic to `Syntax.Token`) and
own no children; every other node owns at least one child except a
`Statement` derived through the empty production; and the tree is finite
and acyclic because `SyntaxNode` is inductive. -/
theorem C8_tree_invariants :
    ∀ (fuel : Nat) (toks : List Token) (n : SyntaxNode) (st' : PSt),
    Parser.parseToks fuel toks = some (.ok (n, st')) →
    nodeOk n = true := by
  intro fuel toks n st' h
  exact ((Parser.inv_all fuel).program _ _ _ h).2

/-- C8, witness: the invariant holds for the tree parsed from `x:=1.`. -/
theorem C8_tree_invariants_witness : nodeOk c8Tree = true :=
  C8_tree_invariants 64 c8Toks c8Tree ⟨none, []⟩ (by rfl)

/-- C9.  Reserved-word lookup is exact and case-sensitive: `try_from`
succeeds only on the thirteen exact reserved words (and on each of them);
whenever the lexer emits a `Keyword` for a letter-introduced word, the
accumulated text is byte-for-byte that reserved word; `"Begin"` and
`"WHILE"` lex as identifiers while `"while"` lexes as a keyword. -/
theorem C9_keyword_lookup_exact :
    (∀ (s : String) (k : Keyword), Keyword.tryFrom s = some k → s = k.asString) ∧
    (∀ k : Keyword, Keyword.tryFrom k.asString = some k) ∧
    (∀ (st : TokSt) (k : Keyword) (st2 : TokSt),
      Tokenizer.tokenizeIdentifier st = (.Keyword k, st2) →
      Tokenizer.strOfBytes (st.cur :: (Tokenizer.identLoop st.cur st.input).1)
        = k.asString) ∧
    Tokenizer.getNextToken 9 (Tokenizer.new (bytesOfAscii "Begin "))
      = some (.ok (.Identifier "Begin", ⟨32, []⟩)) ∧
    Tokenizer.getNextToken 9 (Tokenizer.new (bytesOfAscii "WHILE "))
      = some (.ok (.Identifier "WHILE", ⟨32, []⟩)) ∧
    Tokenizer.getNextToken 9 (Tokenizer.new (bytesOfAscii "while "))
      = some (.ok (.Keyword .While, ⟨32, []⟩)) := by
  have h1 : ∀ (s : String) (k : Keyword),
      Keyword.tryFrom s = some k → s = k.asString := by
    intro s k h
    unfold Keyword.tryFrom at h
    by_cases c1 : s = "begin"
    · rw [if_pos c1] at h
      injection h with hk
      subst hk
      exact c1
    rw [if_neg c1] at h
    by_cases c2 : s = "end"
    · rw [if_pos c2] at h
      injection h with hk
      subst hk
      exact c2
    rw [if_neg c2] at h
    by_cases c3 : s = "if"
    · rw [if_pos c3] at h
      injection h with hk
      subst hk
      exact c3
    rw [if_neg c3] at h
    by_cases c4 : s = "then"
    · rw [if_pos c4] at h
      injection h with hk
      subst hk
      exact c4
    rw [if_neg c4] at h
    by_cases c5 : s = "while"
    · rw [if_pos c5] at h
      injection h with hk
      subst hk
      exact c5
    rw [if_neg c5] at h
    by_cases c6 : s = "do"
    · rw [if_pos c6] at h
      injection h with hk
      subst hk
      exact c6
    rw [if_neg c6] at h
    by_cases c7 : s = "return"
    · rw [if_pos c7] at h
      injection h with hk
      subst hk
      exact c7
    rw [if_neg c7] at h
    by_cases c8 : s = "function"
    · rw [if_pos c8] at h
      injection h with hk
      subst hk
      exact c8
    rw [if_neg c8] at h
    by_cases c9 : s = "var"
    · rw [if_pos c9] at h
      injection h with hk
      subst hk
      exact c9
    rw [if_neg c9] at h
    by_cases c10 : s = "const"
    · rw [if_pos c10] at h
      injection h with hk
      subst hk
      exact c10
    rw [if_neg c10] at h
    by_cases c11 : s = "odd"
    · rw [if_pos c11] at h
      injection h with hk
      subst hk
      exact c11
    rw [if_neg c11] at h
    by_cases c12 : s = "write"
    · rw [if_pos c12] at h
      injection h with hk
      subst hk
      exact c12
    rw [if_neg c12] at h
    by_cases c13 : s = "writeln"
    · rw [if_pos c13] at h
      injection h with hk
      subst hk
      exact c13
    rw [if_neg c13] at h
    exact Option.noConfusion h
  refine ⟨h1, fun k => by cases k <;> rfl, ?_, by rfl, by rfl, by rfl⟩
  intro st k st2 h
  unfold Tokenizer.tokenizeIdentifier at h
  rcases htf : Keyword.tryFrom
      (Tokenizer.strOfBytes (st.cur :: (Tokenizer.identLoop st.cur st.input).1))
    with _ | kw
  · simp [htf] at h
  · simp only [htf] at h
    obtain ⟨hk, -⟩ := Prod.mk.injEq .. ▸ h
    cases hk
    exact h1 _ _ htf

/-- C9, witness: the exactness direction at `"begin"`, and the lexer-level
direction at the word `while`. -/
theorem C9_keyword_lookup_exact_witness :
    "begin" = Keyword.asString .Begin ∧
    Tokenizer.strOfBytes
        (119 :: (Tokenizer.identLoop 119 [104, 105, 108, 101, 32]).1)
      = Keyword.asString .While :=
  ⟨C9_keyword_lookup_exact.1 "begin" .Begin (by rfl),
   C9_keyword_lookup_exact.2.2.1 ⟨119, [104, 105, 108, 101, 32]⟩ .While
     ⟨32, []⟩ (by rfl)⟩

/-- C10, counterexample.  The claim says every `':'` not immediately
followed by `'='` yields `UndefinedToken`.  When the `':'` is the last
byte of the stream the colon arm's `_read_next_byte()?` propagates
`ReachedEOF` instead. -/
theorem C10_counterexample :
    Tokenizer.getNextToken 9 (Tokenizer.new (bytesOfAscii ":"))
      = some (.error .ReachedEOF) ∧
    TokenizerError.ReachedEOF ≠ TokenizerError.UndefinedToken := by
  refine ⟨by rfl, by decide⟩

/-- C10, amended.  A `':'` followed by a byte other than `'='` yields
`UndefinedToken`; a `':'` that is the last byte of the stream yields
`ReachedEOF`; the `Assign` token is produced exactly by the two-byte
sequence `":="` (a lone colon is never a token). -/
theorem C10_colon_behavior :
    ∀ (f b : Nat) (r : List Nat),
    (CharClass.fromU8 b ≠ .Equal →
      Tokenizer.getNextToken (f + 1) ⟨58, b :: r⟩
        = some (.error .UndefinedToken)) ∧
    Tokenizer.getNextToken (f + 1) ⟨58, []⟩ = some (.error .ReachedEOF) ∧
    Tokenizer.getNextToken (f + 1) ⟨58, 61 :: r⟩
      = some (.ok (.Symbol .Assign, Tokenizer.advOrKeep ⟨61, r⟩)) := by
  intro f b r
  refine ⟨?_, ?_, ?_⟩
  · intro hb
    show (match CharClass.fromU8 b with
          | CharClass.Equal =>
            some (Except.ok (Token.Symbol Symbol.Assign, Tokenizer.advOrKeep ⟨b, r⟩))
          | _ => some (Except.error TokenizerError.UndefinedToken))
        = some (.error .UndefinedToken)
    cases hcb : CharClass.fromU8 b with
    | Equal => exact (hb hcb).elim
    | Digit | Letter | Plus | Minus | Aster | Slash | Lparen | Rparen
    | Lss | Gtr | Comma | Period | Semicolon | Colon | Other => rfl
  · simp [Tokenizer.getNextToken, Tokenizer.skipWs, Tokenizer.skipWsAux,
      Tokenizer.isWs, Tokenizer.readNextByte, CharClass.fromU8]
  · simp [Tokenizer.getNextToken, Tokenizer.skipWs, Tokenizer.skipWsAux,
      Tokenizer.isWs, Tokenizer.readNextByte, CharClass.fromU8]

/-- C10, witness: the amended behavior at `": "`, `":"` and `":="`. -/
theorem C10_colon_behavior_witness :
    Tokenizer.getNextToken 1 ⟨58, [32]⟩ = some (.error .UndefinedToken) ∧
    Tokenizer.getNextToken 1 ⟨58, []⟩ = some (.error .ReachedEOF) ∧
    Tokenizer.getNextToken 1 ⟨58, [61]⟩
      = some (.ok (.Symbol .Assign, Tokenizer.advOrKeep ⟨61, []⟩)) :=
  ⟨(C10_colon_behavior 0 32 []).1 (by decide),
   (C10_colon_behavior 0 32 []).2.1,
   (C10_colon_behavior 0 32 []).2.2⟩

end PL0
